import Mathlib

/-!
Verification of the HGL cooperation-sentence compiler (src/cli/hglc/hglc.py).

The Python code operates on strings as sequences of Unicode code points; we
model a Python string as `List Char` and translate each function of the
source directly.  `sys.exit(msg)` (process termination with a printed
message) is modelled by the `PyResult.exits` constructor; an ordinary
`return v` by `PyResult.ret`.
-/

namespace HGL

set_option maxRecDepth 65536

abbrev Str := List Char

/-- Whitespace recognized by Python's str.split() / str.strip()
    (ASCII subset; the grammar's inputs are ASCII). -/
def isSpace (c : Char) : Bool :=
  c = ' ' || c = '\t' || c = '\n' || c = '\r' || c = '\x0b' || c = '\x0c'

/-- Python str.strip(): drop whitespace from both ends. -/
def stripChars (s : Str) : Str :=
  ((s.dropWhile isSpace).reverse.dropWhile isSpace).reverse

/-- Python str.split() with no separator: maximal runs of non-whitespace. -/
def pywords (s : Str) : List Str :=
  (s.foldr
    (fun c acc =>
      if isSpace c then [] :: acc
      else
        match acc with
        | [] => [[c]]
        | w :: ws => (c :: w) :: ws)
    []).filter (fun w => !w.isEmpty)

/-- Python " ".join(ws). -/
def joinWords : List Str → Str
  | [] => []
  | w :: ws => w ++ (ws.map (fun t => ' ' :: t)).flatten

/-- Line 9 of parse_line: line = " ".join(line.strip().split()). -/
def normalizeLine (s : Str) : Str := joinWords (pywords (stripChars s))

/-- pat is an initial run of s. -/
def headMatches : Str → Str → Bool
  | [], _ => true
  | _ :: _, [] => false
  | p :: ps, c :: cs => p = c && headMatches ps cs

/-- Python str.find(pat, start): least index i with start ≤ i ≤ len s at which
    pat occurs; none when absent (Python returns -1). -/
def findFrom (s pat : Str) (start : Nat) : Option Nat :=
  ((List.range (s.length + 1)).filter
    (fun i => start ≤ i && headMatches pat (s.drop i))).head?

/-- Python str.find(pat). -/
def pyFind (s pat : Str) : Option Nat := findFrom s pat 0

/-- Python s.split(sep, 1) unpacked into two pieces: the part before the first
    occurrence of sep and the part after it; none when sep is absent
    (in the source an absent separator raises ValueError). -/
def splitOnceOn (sep : Char) : Str → Option (Str × Str)
  | [] => none
  | c :: cs =>
    if c = sep then some ([], cs)
    else
      match splitOnceOn sep cs with
      | none => none
      | some (a, b) => some (c :: a, b)

/-- Python s.split(sep): all pieces, empty pieces kept. -/
def splitAllOn (sep : Char) (s : Str) : List Str :=
  s.foldr
    (fun c acc =>
      if c = sep then [] :: acc
      else
        match acc with
        | [] => [[c]]
        | w :: ws => (c :: w) :: ws)
    [[]]

/-- Python str.lower() on the ASCII letters (the keys it is applied to are ASCII). -/
def asciiLower (c : Char) : Char :=
  if 'A' ≤ c && c ≤ 'Z' then Char.ofNat (c.toNat + 32) else c

/-- Association-list lookup (Python dict access keyed by string). -/
def alookup {α : Type} (k : Str) : List (Str × α) → Option α
  | [] => none
  | (k', v) :: t => if k = k' then some v else alookup k t

/-- Outcome of running a Python function: an ordinary return, or process
    termination via sys.exit(msg). -/
inductive PyResult (α : Type) where
  | ret : α → PyResult α
  | exits : String → PyResult α
deriving DecidableEq

/-- ALLOWED_INTENT. -/
def ALLOWED_INTENT : List Str := ["approve".data, "deny".data, "request".data]

/-- ALLOWED_ACT. -/
def ALLOWED_ACT : List Str := ["access".data, "upsert".data, "execute".data]

/-- ALLOWED_KIND. -/
def ALLOWED_KIND : List Str := ["Human".data, "IAD".data, "CLS".data]

/-- ALLOWED_OBJK. -/
def ALLOWED_OBJK : List Str := ["dataset".data, "model".data, "ledger".data, "capability".data]

/-- ALLOWED_SCOPE. -/
def ALLOWED_SCOPE : List Str := ["read".data, "write".data, "execute".data]

/-- The fixed tag order of the extractor. -/
def TAGS : List Str :=
  ["SUBJ:".data, "INTENT:".data, "ACT:".data, "OBJ:".data,
   "CONSENT:".data, "POLICY:".data, "PROOF:".data]

/-- The required field names, in the order they are checked. -/
def REQUIRED : List Str := ["SUBJ".data, "INTENT".data, "ACT".data, "OBJ".data]

/-- The inner loop of the extractor: nxt = min over the later tags of their
    first occurrence at or after position start (len rest when none occurs). -/
def segEnd (rest : Str) (later : List Str) (start : Nat) : Nat :=
  later.foldl
    (fun nxt t2 =>
      match findFrom rest t2 start with
      | some j => if j < nxt then j else nxt
      | none => nxt)
    rest.length

/-- The extractor loop of parse_line (lines 10-19): for each tag found in the
    line, record tag[:-1] ↦ rest[idx+len(tag):nxt].strip(). -/
def extractLoop (rest : Str) : List Str → List (Str × Str)
  | [] => []
  | tag :: later =>
    (match pyFind rest tag with
     | none => []
     | some idx =>
       [(tag.dropLast,
         stripChars ((rest.drop (idx + tag.length)).take
           (segEnd rest later (idx + tag.length) - (idx + tag.length))))]) ++
    extractLoop rest later

/-- The field extractor applied to all tags (input already normalized). -/
def extractFields (nline : Str) : List (Str × Str) := extractLoop nline TAGS

/-- The extractor exactly as claim C7 words it: the value of a tag is the raw
    substring from just after the marker up to the earliest occurrence of any
    later tag (with no trimming of the value). -/
def extractLoopSpec (rest : Str) : List Str → List (Str × Str)
  | [] => []
  | tag :: later =>
    (match pyFind rest tag with
     | none => []
     | some idx =>
       [(tag.dropLast,
         (rest.drop (idx + tag.length)).take
           (segEnd rest later (idx + tag.length) - (idx + tag.length)))]) ++
    extractLoopSpec rest later

/-- First key of a list absent from the extracted mapping. -/
def firstAbsent (parts : List (Str × Str)) : List Str → Option Str
  | [] => none
  | k :: ks => if (alookup k parts).isNone then some k else firstAbsent parts ks

/-- First required field whose key is absent from the extracted mapping
    (the loop at lines 20-21 exits at the first such field). -/
def firstMissing (parts : List (Str × Str)) : Option Str :=
  firstAbsent parts REQUIRED

/-- First key of a list whose tag marker does not occur in the line. -/
def firstNoTag (nline : Str) : List Str → Option Str
  | [] => none
  | k :: ks => if (pyFind nline (k ++ [':'])).isNone then some k else firstNoTag nline ks

/-- First required field whose tag marker does not occur in the normalized
    line (used to state claim C4 in terms of the raw line). -/
def missingRequired (nline : Str) : Option Str :=
  firstNoTag nline REQUIRED

/-- The optional provenance mapping: at most the keys sha256 and sig_ed25519. -/
structure Prov where
  sha256 : Option Str
  sig_ed25519 : Option Str
deriving DecidableEq

/-- The validated sentence record built by parse_line. -/
structure Sentence where
  subj_kind : Str
  subj_id : Str
  intent : Str
  act : Str
  obj_kind : Str
  obj_id : Str
  consent : Option (Str × Str)
  policy : Option (List Str)
  provenance : Option Prov
deriving DecidableEq

/-- Digest-clause validity (line 48): exactly 64 characters, all hex. -/
def validDigest (v : Str) : Bool :=
  v.length = 64 && v.all (fun c => c ∈ "0123456789abcdefABCDEF".data)

/-- k in ("sha256","hash"). -/
def isDigKey (k : Str) : Bool := k = "sha256".data || k = "hash".data

/-- k in ("sig","sig_ed25519"). -/
def isSigKey (k : Str) : Bool := k = "sig".data || k = "sig_ed25519".data

/-- Split one PROOF clause at its first '=' and normalize: key stripped and
    lowercased, value stripped; none when no '=' occurs (such a clause is
    skipped). -/
def clauseKV (kv : Str) : Option (Str × Str) :=
  (splitOnceOn '=' kv).map (fun p => ((stripChars p.1).map asciiLower, stripChars p.2))

/-- Process one PROOF clause (lines 45-52). -/
def procClause (prov : Prov) (kv : Str) : PyResult Prov :=
  match clauseKV kv with
  | none => .ret prov
  | some (k, v) =>
    if isDigKey k then
      if validDigest v then .ret { prov with sha256 := some v }
      else .exits "ParseError: PROOF.sha256 must be 64 hex chars"
    else if isSigKey k then .ret { prov with sig_ed25519 := some v }
    else .ret prov

/-- Process the PROOF clauses left to right. -/
def procProof (prov : Prov) : List Str → PyResult Prov
  | [] => .ret prov
  | kv :: rest =>
    match procClause prov kv with
    | .exits m => .exits m
    | .ret p2 => procProof p2 rest

/-- The PROOF-field processing of parse_line on a non-empty PROOF value. -/
def parseProof (p : Str) : PyResult Prov :=
  procProof { sha256 := none, sig_ed25519 := none } (splitAllOn ';' p)

/-- The recognized (normalized) clauses of a PROOF value, left to right. -/
def clausesOf (p : Str) : List (Str × Str) :=
  (splitAllOn ';' p).filterMap clauseKV

/-- The digest clauses of a PROOF value. -/
def digestClauses (p : Str) : List (Str × Str) :=
  (clausesOf p).filter (fun c => isDigKey c.1)

/-- The signature clauses of a PROOF value. -/
def sigClauses (p : Str) : List (Str × Str) :=
  (clausesOf p).filter (fun c => isSigKey c.1)

/-- The value of the last clause of a list, if any. -/
def lastVal : List (Str × Str) → Option Str
  | [] => none
  | [(_, v)] => some v
  | _ :: c :: t => lastVal (c :: t)

/-- The first option when present, the second otherwise. -/
def optOr (a b : Option Str) : Option Str :=
  match a with
  | some x => some x
  | none => b

/-- Lines 22-24: SUBJ value must split at its first ':'; the kind must be an
    allowed subject kind.  (The identifier is whatever follows the colon.) -/
def parseSubjField (s : Str) : PyResult (Str × Str) :=
  match splitOnceOn ':' s with
  | none => .exits "ParseError: SUBJ must look like Kind:identifier"
  | some (kind, sid) =>
    if kind ∈ ALLOWED_KIND then .ret (kind, sid)
    else .exits "ParseError: invalid subject kind"

/-- Lines 28-30: OBJ value must split at its first '/'; the kind must be an
    allowed object kind. -/
def parseObjField (s : Str) : PyResult (Str × Str) :=
  match splitOnceOn '/' s with
  | none => .exits "ParseError: OBJ must look like kind/id"
  | some (kind, oid) =>
    if kind ∈ ALLOWED_OBJK then .ret (kind, oid)
    else .exits "ParseError: invalid OBJ kind"

/-- Lines 35-39: a non-empty CONSENT value must split at its first '@' into an
    allowed scope and an until string (stripped). -/
def parseConsent (cv : Str) : PyResult (Str × Str) :=
  match splitOnceOn '@' cv with
  | none => .exits "ParseError: CONSENT must look like scope@until"
  | some (scope, until_) =>
    if scope ∈ ALLOWED_SCOPE then .ret (scope, stripChars until_)
    else .exits "ParseError: invalid CONSENT scope"

/-- Line 41: POLICY tokens: replace commas by spaces, split on whitespace. -/
def policyToks (pv : Str) : List Str :=
  (pywords (pv.map (fun c => if c = ',' then ' ' else c))).filter (fun t => !t.isEmpty)

/-- Lines 34-39: attach the consent record when CONSENT was found non-empty. -/
def withConsent (parts : List (Str × Str)) (s : Sentence) : PyResult Sentence :=
  match alookup "CONSENT".data parts with
  | none => .ret s
  | some cv =>
    if cv = [] then .ret s
    else
      match parseConsent cv with
      | .exits m => .exits m
      | .ret c => .ret { s with consent := some c }

/-- Lines 40-42: attach the policy record when POLICY was found non-empty. -/
def withPolicy (parts : List (Str × Str)) (s : Sentence) : Sentence :=
  match alookup "POLICY".data parts with
  | none => s
  | some pv => if pv = [] then s else { s with policy := some (policyToks pv) }

/-- Lines 43-53: attach the provenance record when PROOF was found non-empty
    and at least one clause was recognized. -/
def withProof (parts : List (Str × Str)) (s : Sentence) : PyResult Sentence :=
  match alookup "PROOF".data parts with
  | none => .ret s
  | some pv =>
    if pv = [] then .ret s
    else
      match parseProof pv with
      | .exits m => .exits m
      | .ret prov =>
        .ret (if prov = { sha256 := none, sig_ed25519 := none } then s
              else { s with provenance := some prov })

/-- parse_line (lines 8-54).  The lookups after the required-field check use
    a default that is never reached (the keys were just checked present). -/
def parse_line (line : Str) : PyResult Sentence :=
  let nline := normalizeLine line
  let parts := extractFields nline
  match firstMissing parts with
  | some k => .exits ("ParseError: missing required field " ++ String.mk k)
  | none =>
    match parseSubjField ((alookup "SUBJ".data parts).getD []) with
    | .exits m => .exits m
    | .ret (kind, sid) =>
      let intent := (alookup "INTENT".data parts).getD []
      let act := (alookup "ACT".data parts).getD []
      if intent ∉ ALLOWED_INTENT then .exits "ParseError: invalid INTENT"
      else if act ∉ ALLOWED_ACT then .exits "ParseError: invalid ACT"
      else
        match parseObjField ((alookup "OBJ".data parts).getD []) with
        | .exits m => .exits m
        | .ret (okind, oid) =>
          let base : Sentence :=
            { subj_kind := kind, subj_id := sid, intent := intent, act := act,
              obj_kind := okind, obj_id := oid,
              consent := none, policy := none, provenance := none }
          match withConsent parts base with
          | .exits m => .exits m
          | .ret s1 => withProof parts (withPolicy parts s1)

/-!  The JSON value model.  The records this program serializes consist of
strings, arrays of values and string-keyed objects (no numbers, booleans or
null occur in any record it builds), so the model covers that fragment.
Objects keep their insertion order, as Python dicts do. -/

mutual
inductive J where
  | str : Str → J
  | arr : JList → J
  | obj : JObj → J
inductive JList where
  | nil : JList
  | cons : J → JList → JList
inductive JObj where
  | nil : JObj
  | cons : Str → J → JObj → JObj
end

/-- Build a JList from a Lean list. -/
def ofList : List J → JList
  | [] => .nil
  | x :: t => .cons x (ofList t)

/-- Build a JObj from a Lean list of pairs. -/
def ofListO : List (Str × J) → JObj
  | [] => .nil
  | (k, v) :: t => .cons k v (ofListO t)

/-- The Lean list of a JList. -/
def jlToList : JList → List J
  | .nil => []
  | .cons x t => x :: jlToList t

/-- The Lean pair list of a JObj. -/
def joToList : JObj → List (Str × J)
  | .nil => []
  | .cons k v t => (k, v) :: joToList t

/-- Object lookup (Python dict access). -/
def alookupO (k : Str) : JObj → Option J
  | .nil => none
  | .cons k' v t => if k = k' then some v else alookupO k t

/-- The keys of an object, in insertion order. -/
def keysO : JObj → List Str
  | .nil => []
  | .cons k _ t => k :: keysO t

/-- No key occurs twice (every Python dict satisfies this). -/
def nodupKeysO : JObj → Bool
  | .nil => true
  | .cons k _ t => (alookupO k t).isNone && nodupKeysO t

mutual
/-- A value all of whose objects have pairwise distinct keys: exactly the
    values that arise from Python dicts. -/
def wfJ : J → Bool
  | .str _ => true
  | .arr xs => wfL xs
  | .obj kvs => nodupKeysO kvs && wfO kvs
def wfL : JList → Bool
  | .nil => true
  | .cons x xs => wfJ x && wfL xs
def wfO : JObj → Bool
  | .nil => true
  | .cons _ v t => wfJ v && wfO t
end

/-- Each key of o2 is present in o1. -/
def keysSub : JObj → JObj → Bool
  | .nil, _ => true
  | .cons k _ t, o => (alookupO k o).isSome && keysSub t o

mutual
/-- Structural equality of records: same keys and same values at every
    nesting level, regardless of insertion order; array order significant. -/
def structEq : J → J → Bool
  | .str a, .str b => decide (a = b)
  | .arr xs, .arr ys => structEqL xs ys
  | .obj kvs, .obj o => structEqO kvs o && keysSub o kvs
  | _, _ => false
def structEqL : JList → JList → Bool
  | .nil, .nil => true
  | .cons x xs, .cons y ys => structEq x y && structEqL xs ys
  | _, _ => false
def structEqO : JObj → JObj → Bool
  | .nil, _ => true
  | .cons k v t, o =>
    (match alookupO k o with
     | some v' => structEq v v'
     | none => false) && structEqO t o
end

/-- Code-point lexicographic strict order on strings (Python str <). -/
def strLt : Str → Str → Bool
  | [], [] => false
  | [], _ :: _ => true
  | _ :: _, [] => false
  | a :: as, b :: bs =>
    if a.toNat < b.toNat then true
    else if b.toNat < a.toNat then false
    else strLt as bs

/-- Insertion step of the key sort (stable: equal keys keep their order). -/
def insertPair (p : Str × Str) : List (Str × Str) → List (Str × Str)
  | [] => [p]
  | q :: t => if strLt p.1 q.1 then p :: q :: t else q :: insertPair p t

/-- Sort rendered key/value pairs by key (json.dumps sort_keys=True; dict
    keys are unique, so any comparison sort gives this order). -/
def sortRendered : List (Str × Str) → List (Str × Str)
  | [] => []
  | p :: t => insertPair p (sortRendered t)

/-- Insertion step of the key sort on object entries. -/
def insertPairJ (k : Str) (v : J) : JObj → JObj
  | .nil => .cons k v .nil
  | .cons k' v' t =>
    if strLt k k' then .cons k v (.cons k' v' t) else .cons k' v' (insertPairJ k v t)

/-- Sort object entries by key. -/
def sortPairsJ : JObj → JObj
  | .nil => .nil
  | .cons k v t => insertPairJ k v (sortPairsJ t)

mutual
/-- Recursively sort every object of a value by key: the record json.load
    yields when reading canonical output. -/
def sortDeep : J → J
  | .str s => .str s
  | .arr xs => .arr (sortDeepL xs)
  | .obj kvs => .obj (sortPairsJ (sortDeepO kvs))
def sortDeepL : JList → JList
  | .nil => .nil
  | .cons x xs => .cons (sortDeep x) (sortDeepL xs)
def sortDeepO : JObj → JObj
  | .nil => .nil
  | .cons k v t => .cons k (sortDeep v) (sortDeepO t)
end

/-- Lowercase hex digit. -/
def hexDigitLower (n : Nat) : Char := "0123456789abcdef".data.getD n '0'

/-- The four hex digits of a 16-bit value, lowercase. -/
def hexDigits4 (n : Nat) : Str :=
  [hexDigitLower (n / 4096 % 16), hexDigitLower (n / 256 % 16),
   hexDigitLower (n / 16 % 16), hexDigitLower (n % 16)]

/-- A \uXXXX escape, lowercase hex. -/
def uEsc (n : Nat) : Str := '\\' :: 'u' :: hexDigits4 n

/-- json.dumps character escaping with its default ensure_ascii=True:
    quote, backslash and the named control escapes; every other character
    outside 0x20..0x7e as \uXXXX (a surrogate pair beyond 0xFFFF). -/
def escapeChar (c : Char) : Str :=
  if c = '"' then ['\\', '"']
  else if c = '\\' then ['\\', '\\']
  else if c = '\n' then ['\\', 'n']
  else if c = '\r' then ['\\', 'r']
  else if c = '\t' then ['\\', 't']
  else if c.toNat = 8 then ['\\', 'b']
  else if c.toNat = 12 then ['\\', 'f']
  else if c.toNat < 32 || 126 < c.toNat then
    if c.toNat < 65536 then uEsc c.toNat
    else
      uEsc (55296 + (c.toNat - 65536) / 1024) ++ uEsc (56320 + (c.toNat - 65536) % 1024)
  else [c]

/-- The escaped body of a JSON string literal. -/
def escString (s : Str) : Str := (s.map escapeChar).flatten

/-- A JSON string literal. -/
def renderStr (s : Str) : Str := '"' :: escString s ++ ['"']

/-- Comma-separated concatenation (separators=(",",":") emits no spaces). -/
def joinComma : List Str → Str
  | [] => []
  | s :: rest => s ++ (rest.map (fun t => ',' :: t)).flatten

mutual
/-- canon_json, line 55: json.dumps(d, sort_keys=True, separators=(",",":")),
    as the sequence of code points of the output.  Keys are sorted at every
    nesting level; rendering an entry and sorting commute since the sort
    compares keys only. -/
def canon : J → Str
  | .str s => renderStr s
  | .arr xs => '[' :: joinComma (canonL xs) ++ [']']
  | .obj kvs =>
    '\x7b' :: joinComma ((sortRendered (canonKV kvs)).map
      (fun p => renderStr p.1 ++ ':' :: p.2)) ++ ['\x7d']
def canonL : JList → List Str
  | .nil => []
  | .cons x xs => canon x :: canonL xs
def canonKV : JObj → List (Str × Str)
  | .nil => []
  | .cons k v t => (k, canon v) :: canonKV t
end

/-- canon_json as a string. -/
def canon_json (d : J) : String := String.mk (canon d)

/-- The text after the first element of a canonical array: ",e2,e3...". -/
def arrTailText (xs : JList) : Str := ((canonL xs).map (fun s => ',' :: s)).flatten

/-- The text after the first entry of a canonical object: ",k2:v2,...". -/
def objTailText (o : JObj) : Str :=
  (((canonKV o).map (fun p => renderStr p.1 ++ ':' :: p.2)).map (fun s => ',' :: s)).flatten

/-- UTF-8 encoding of one code point (str.encode()). -/
def utf8Char (c : Char) : List Nat :=
  let n := c.toNat
  if n < 128 then [n]
  else if n < 2048 then [192 + n / 64, 128 + n % 64]
  else if n < 65536 then [224 + n / 4096, 128 + n / 64 % 64, 128 + n % 64]
  else [240 + n / 262144, 128 + n / 4096 % 64, 128 + n / 64 % 64, 128 + n % 64]

/-- UTF-8 encoding of a string as a byte list. -/
def utf8Bytes (s : Str) : List Nat := (s.map utf8Char).flatten

/-- SHA-256 round constants. -/
def SHA_K : List Nat :=
  [1116352408, 1899447441, 3049323471, 3921009573, 961987163, 1508970993,
   2453635748, 2870763221, 3624381080, 310598401, 607225278, 1426881987,
   1925078388, 2162078206, 2614888103, 3248222580, 3835390401, 4022224774,
   264347078, 604807628, 770255983, 1249150122, 1555081692, 1996064986,
   2554220882, 2821834349, 2952996808, 3210313671, 3336571891, 3584528711,
   113926993, 338241895, 666307205, 773529912, 1294757372, 1396182291,
   1695183700, 1986661051, 2177026350, 2456956037, 2730485921, 2820302411,
   3259730800, 3345764771, 3516065817, 3600352804, 4094571909, 275423344,
   430227734, 506948616, 659060556, 883997877, 958139571, 1322822218,
   1537002063, 1747873779, 1955562222, 2024104815, 2227730452, 2361852424,
   2428436474, 2756734187, 3204031479, 3329325298]

/-- SHA-256 initial hash value. -/
def SHA_H0 : List Nat :=
  [1779033703, 3144134277, 1013904242, 2773480762,
   1359893119, 2600822924, 528734635, 1541459225]

/-- Addition modulo 2^32. -/
def add32 (a b : Nat) : Nat := (a + b) % 4294967296

/-- Right rotation of a 32-bit word. -/
def rotr32 (n w : Nat) : Nat := (w / 2 ^ n + w % 2 ^ n * 2 ^ (32 - n)) % 4294967296

/-- Logical right shift of a 32-bit word. -/
def shr32 (n w : Nat) : Nat := w / 2 ^ n

/-- Bitwise complement of a 32-bit word. -/
def not32 (w : Nat) : Nat := 4294967295 ^^^ w

/-- SHA-256 Σ0. -/
def bigSigma0 (x : Nat) : Nat := rotr32 2 x ^^^ rotr32 13 x ^^^ rotr32 22 x

/-- SHA-256 Σ1. -/
def bigSigma1 (x : Nat) : Nat := rotr32 6 x ^^^ rotr32 11 x ^^^ rotr32 25 x

/-- SHA-256 σ0. -/
def smallSigma0 (x : Nat) : Nat := rotr32 7 x ^^^ rotr32 18 x ^^^ shr32 3 x

/-- SHA-256 σ1. -/
def smallSigma1 (x : Nat) : Nat := rotr32 17 x ^^^ rotr32 19 x ^^^ shr32 10 x

/-- SHA-256 Ch. -/
def chF (x y z : Nat) : Nat := (x &&& y) ^^^ (not32 x &&& z)

/-- SHA-256 Maj. -/
def majF (x y z : Nat) : Nat := (x &&& y) ^^^ (x &&& z) ^^^ (y &&& z)

/-- 64-bit big-endian byte encoding. -/
def be64 (n : Nat) : List Nat :=
  [n / 2 ^ 56 % 256, n / 2 ^ 48 % 256, n / 2 ^ 40 % 256, n / 2 ^ 32 % 256,
   n / 2 ^ 24 % 256, n / 2 ^ 16 % 256, n / 2 ^ 8 % 256, n % 256]

/-- SHA-256 padding: 0x80, zeros to 56 mod 64, then the bit length. -/
def padMsg (m : List Nat) : List Nat :=
  m ++ 128 :: List.replicate ((64 + 55 - m.length % 64) % 64) 0 ++ be64 (m.length * 8)

/-- Split a byte list into 64-byte blocks. -/
def toBlocks : List Nat → List (List Nat)
  | [] => []
  | b :: l => (b :: l).take 64 :: toBlocks ((b :: l).drop 64)
termination_by l => l.length
decreasing_by simp; omega

/-- Big-endian 32-bit word from bytes. -/
def beWord (bytes : List Nat) : Nat := bytes.foldl (fun a b => a * 256 + b) 0

/-- The 16 words of a block. -/
def blockWords (block : List Nat) : List Nat :=
  (List.range 16).map (fun i => beWord ((block.drop (4 * i)).take 4))

/-- Extend the message schedule to 64 words. -/
def extendSched (w : List Nat) : List Nat :=
  (List.range 48).foldl
    (fun ws _ =>
      ws ++ [add32
        (add32 (smallSigma1 (ws.getD (ws.length - 2) 0)) (ws.getD (ws.length - 7) 0))
        (add32 (smallSigma0 (ws.getD (ws.length - 15) 0)) (ws.getD (ws.length - 16) 0))])
    w

/-- One SHA-256 compression step over a block. -/
def compressBlock (h : List Nat) (block : List Nat) : List Nat :=
  let w := extendSched (blockWords block)
  let fin := (List.range 64).foldl
    (fun st i =>
      match st with
      | (a, b, c, d, e, f, g, hh) =>
        let t1 := add32 (add32 (add32 hh (bigSigma1 e)) (add32 (chF e f g) (SHA_K.getD i 0)))
          (w.getD i 0)
        let t2 := add32 (bigSigma0 a) (majF a b c)
        (add32 t1 t2, a, b, c, add32 d t1, e, f, g))
    (h.getD 0 0, h.getD 1 0, h.getD 2 0, h.getD 3 0,
     h.getD 4 0, h.getD 5 0, h.getD 6 0, h.getD 7 0)
  match fin with
  | (a, b, c, d, e, f, g, hh) =>
    [add32 (h.getD 0 0) a, add32 (h.getD 1 0) b, add32 (h.getD 2 0) c, add32 (h.getD 3 0) d,
     add32 (h.getD 4 0) e, add32 (h.getD 5 0) f, add32 (h.getD 6 0) g, add32 (h.getD 7 0) hh]

/-- SHA-256 state after all blocks. -/
def sha256Words (msg : List Nat) : List Nat :=
  (toBlocks (padMsg msg)).foldl compressBlock SHA_H0

/-- A 32-bit word as 8 lowercase hex digits. -/
def toHex32 (w : Nat) : Str := (List.range 8).map (fun i => hexDigitLower (w / 16 ^ (7 - i) % 16))

/-- hashlib.sha256(bytes).hexdigest(). -/
def sha256_hex (msg : List Nat) : String := String.mk ((sha256Words msg).map toHex32).flatten

/-- The fingerprint of a record (the hash subcommand):
    hashlib.sha256(canon_json(d).encode()).hexdigest(). -/
def fingerprint (d : J) : String := sha256_hex (utf8Bytes (canon d))

/-- The value of a hex digit (either case). -/
def hexVal (c : Char) : Option Nat :=
  if '0' ≤ c && c ≤ '9' then some (c.toNat - 48)
  else if 'a' ≤ c && c ≤ 'f' then some (c.toNat - 87)
  else if 'A' ≤ c && c ≤ 'F' then some (c.toNat - 55)
  else none

/-- The single-character JSON string escapes. -/
def simpleEsc (c : Char) : Option Char :=
  if c = '"' then some '"'
  else if c = '\\' then some '\\'
  else if c = '/' then some '/'
  else if c = 'b' then some '\x08'
  else if c = 'f' then some '\x0c'
  else if c = 'n' then some '\n'
  else if c = 'r' then some '\r'
  else if c = 't' then some '\t'
  else none

/-- Four hex digits and the rest of the input. -/
def hexQuad4 : Str → Option (Nat × Str)
  | a :: b :: c :: d :: r =>
    (match hexVal a, hexVal b, hexVal c, hexVal d with
     | some ha, some hb, some hc, some hd => some (ha * 4096 + hb * 256 + hc * 16 + hd, r)
     | _, _, _, _ => none)
  | _ => none

/-- High (leading) surrogate range. -/
def isHighSur (n : Nat) : Bool := 55296 ≤ n && n ≤ 56319

/-- Low (trailing) surrogate range. -/
def isLowSur (n : Nat) : Bool := 56320 ≤ n && n ≤ 57343

/-- Decode the low-surrogate escape \uXXXX that must follow a high one. -/
def decodeLow : Str → Option (Nat × Str)
  | [] => none
  | e2 :: r3 =>
    if e2 = '\\' then
      match r3 with
      | [] => none
      | e3 :: r4 =>
        if e3 = 'u' then
          match hexQuad4 r4 with
          | some (m, r5) => if isLowSur m then some (m, r5) else none
          | none => none
        else none
    else none

/-- Decode a \uXXXX escape (after the u), combining surrogate pairs.  A lone
    surrogate is rejected (Python would keep it, but such a code point is not
    a Unicode scalar value and never occurs in canonical output). -/
def decodeU (r1 : Str) : Option (Char × Str) :=
  match hexQuad4 r1 with
  | none => none
  | some (n, r2) =>
    if isHighSur n then
      match decodeLow r2 with
      | some (m, r5) => some (Char.ofNat (65536 + (n - 55296) * 1024 + (m - 56320)), r5)
      | none => none
    else if isLowSur n then none
    else some (Char.ofNat n, r2)

/-- Decode one escape sequence (after the backslash). -/
def decodeEsc : Str → Option (Char × Str)
  | [] => none
  | e :: r1 =>
    if e = 'u' then decodeU r1
    else
      match simpleEsc e with
      | some ec => some (ec, r1)
      | none => none

/-- Prepend a decoded character to a string-parse result. -/
def consFirst (ch : Char) (o : Option (Str × Str)) : Option (Str × Str) :=
  match o with
  | some (s, r) => some (ch :: s, r)
  | none => none

/-- Parse the body of a JSON string literal (after the opening quote) up to
    and including the closing quote; returns the decoded string and the rest.
    Fuel bounds the number of decoded characters; since every character
    consumes input, fuel = input length + 1 always suffices. -/
def parseJStringBody : Nat → Str → Option (Str × Str)
  | 0, _ => none
  | _ + 1, [] => none
  | fuel + 1, c :: r =>
    if c = '"' then some ([], r)
    else if c = '\\' then
      match decodeEsc r with
      | some (ch, r2) => consFirst ch (parseJStringBody fuel r2)
      | none => none
    else if c.toNat < 32 then none
    else consFirst c (parseJStringBody fuel r)

mutual
/-- Fuel-indexed parser for the JSON fragment the program emits (strings,
    arrays, objects; canonical output contains no insignificant whitespace,
    and no numbers, booleans or null occur in its records).  Models
    json.load on such documents. -/
def parseJ : Nat → Str → Option (J × Str)
  | 0, _ => none
  | n + 1, cs =>
    match cs with
    | [] => none
    | c :: r =>
      if c = '"' then
        match parseJStringBody (r.length + 1) r with
        | some (s, rest) => some (J.str s, rest)
        | none => none
      else if c = '[' then
        match r with
        | [] => none
        | c2 :: r2 =>
          if c2 = ']' then some (J.arr .nil, r2)
          else
            match parseJ n r with
            | some (v, r1) => parseArrTail n r1 [v]
            | none => none
      else if c = '\x7b' then
        match r with
        | [] => none
        | c2 :: r2 =>
          if c2 = '\x7d' then some (J.obj .nil, r2)
          else if c2 = '"' then
            match parseJStringBody (r2.length + 1) r2 with
            | some (k, r3) =>
              (match r3 with
               | [] => none
               | c3 :: r4 =>
                 if c3 = ':' then
                   match parseJ n r4 with
                   | some (v, r5) => parseObjTail n r5 [(k, v)]
                   | none => none
                 else none)
            | none => none
          else none
      else none
def parseArrTail : Nat → Str → List J → Option (J × Str)
  | 0, _, _ => none
  | n + 1, cs, acc =>
    match cs with
    | [] => none
    | c :: r =>
      if c = ']' then some (J.arr (ofList acc.reverse), r)
      else if c = ',' then
        match parseJ n r with
        | some (v, r1) => parseArrTail n r1 (v :: acc)
        | none => none
      else none
def parseObjTail : Nat → Str → List (Str × J) → Option (J × Str)
  | 0, _, _ => none
  | n + 1, cs, acc =>
    match cs with
    | [] => none
    | c :: r =>
      if c = '\x7d' then some (J.obj (ofListO acc.reverse), r)
      else if c = ',' then
        match r with
        | [] => none
        | c2 :: r2 =>
          if c2 = '"' then
            match parseJStringBody (r2.length + 1) r2 with
            | some (k, r3) =>
              (match r3 with
               | [] => none
               | c3 :: r4 =>
                 if c3 = ':' then
                   match parseJ n r4 with
                   | some (v, r5) => parseObjTail n r5 ((k, v) :: acc)
                   | none => none
                 else none)
            | none => none
          else none
      else none
end

/-- json.load of a whole document (the canon and hash subcommands re-read a
    record from its serialized form).  The fuel bound length+1 suffices for
    any document: every nesting step consumes input. -/
def pyJsonLoad (s : String) : Option J :=
  match parseJ (s.data.length + 1) s.data with
  | some (v, []) => some v
  | _ => none

/-- The record dict built by parse_line (lines 31-53), with entries in the
    source's insertion order.  (Insertion order of the provenance sub-dict can
    differ in the source when a sig clause comes first; canonical output is
    insensitive to it.) -/
def sentenceToJ (s : Sentence) : J :=
  J.obj (ofListO (
    [("sentence_type".data, J.str "COOP_SENTENCE".data),
     ("v".data, J.str "0.1".data),
     ("subj".data, J.obj (ofListO [("kind".data, J.str s.subj_kind), ("id".data, J.str s.subj_id)])),
     ("intent".data, J.str s.intent),
     ("act".data, J.str s.act),
     ("obj".data, J.obj (ofListO [("kind".data, J.str s.obj_kind), ("id".data, J.str s.obj_id)]))]
    ++ (match s.consent with
        | some c =>
          [("consent".data, J.obj (ofListO [("scope".data, J.str c.1), ("until".data, J.str c.2)]))]
        | none => [])
    ++ (match s.policy with
        | some toks =>
          [("policy".data, J.obj (ofListO [("halt_if".data, J.arr (ofList (toks.map J.str)))]))]
        | none => [])
    ++ (match s.provenance with
        | some p =>
          [("provenance".data, J.obj (ofListO (
            (match p.sha256 with
             | some v => [("sha256".data, J.str v)]
             | none => [])
            ++ (match p.sig_ed25519 with
                | some v => [("sig_ed25519".data, J.str v)]
                | none => []))))]
        | none => [])))

/-!  Helper lemmas. -/

theorem str_data_append (a b : String) : (a ++ b).data = a.data ++ b.data := rfl

theorem headMatches_append : ∀ (p s t : Str), headMatches p s = true → headMatches p (s ++ t) = true := by
  intro p
  induction p with
  | nil => intro s t _; rfl
  | cons c cs ih =>
    intro s t h
    cases s with
    | nil => simp [headMatches] at h
    | cons a as =>
      simp only [headMatches, Bool.and_eq_true] at h ⊢
      exact ⟨h.1, ih as t h.2⟩

theorem splitOnceOn_eq {sep : Char} :
    ∀ {s a b : Str}, splitOnceOn sep s = some (a, b) → s = a ++ sep :: b ∧ sep ∉ a := by
  intro s
  induction s with
  | nil => intro a b h; simp [splitOnceOn] at h
  | cons c cs ih =>
    intro a b h
    by_cases hc : c = sep
    · simp [splitOnceOn, hc] at h
      obtain ⟨ha, hb⟩ := h
      subst ha; subst hb; subst hc
      simp
    · simp only [splitOnceOn, if_neg hc] at h
      cases hs : splitOnceOn sep cs with
      | none => rw [hs] at h; simp at h
      | some p =>
        rw [hs] at h
        obtain ⟨p1, p2⟩ := p
        simp only [Option.some.injEq, Prod.mk.injEq] at h
        obtain ⟨ha, hb⟩ := h
        obtain ⟨hcs, hmem⟩ := ih hs
        subst ha; subst hb; subst hcs
        constructor
        · simp
        · intro hm
          rcases List.mem_cons.mp hm with h1 | h1
          · exact hc h1.symm
          · exact hmem h1

theorem alookup_append {α : Type} (k : Str) :
    ∀ (l1 l2 : List (Str × α)),
      alookup k (l1 ++ l2) =
        match alookup k l1 with
        | some v => some v
        | none => alookup k l2 := by
  intro l1 l2
  induction l1 with
  | nil => simp [alookup]
  | cons p t ih =>
    obtain ⟨k', v⟩ := p
    by_cases h : k = k' <;> simp [alookup, h, ih]

theorem alookup_extractLoop_isSome (rest : Str) :
    ∀ (tags : List Str) (name : Str),
      (alookup name (extractLoop rest tags)).isSome =
        tags.any (fun t => decide (name = t.dropLast) && (pyFind rest t).isSome) := by
  intro tags
  induction tags with
  | nil => intro name; simp [extractLoop, alookup]
  | cons tag later ih =>
    intro name
    simp only [extractLoop, List.any_cons]
    cases hf : pyFind rest tag with
    | none => simp [alookup, ih, hf]
    | some idx =>
      by_cases hn : name = tag.dropLast
      · simp [alookup_append, alookup, hn, hf]
      · simp [alookup_append, alookup, hn, hf, ih]

/-!  Per-field presence in the extracted mapping. -/

theorem isSome_extract_SUBJ (nline : Str) :
    (alookup "SUBJ".data (extractFields nline)).isSome = (pyFind nline "SUBJ:".data).isSome := by
  rw [extractFields, alookup_extractLoop_isSome]
  have h1 : decide ("SUBJ".data = ("SUBJ:".data).dropLast) = true := by decide
  have h2 : decide ("SUBJ".data = ("INTENT:".data).dropLast) = false := by decide
  have h3 : decide ("SUBJ".data = ("ACT:".data).dropLast) = false := by decide
  have h4 : decide ("SUBJ".data = ("OBJ:".data).dropLast) = false := by decide
  have h5 : decide ("SUBJ".data = ("CONSENT:".data).dropLast) = false := by decide
  have h6 : decide ("SUBJ".data = ("POLICY:".data).dropLast) = false := by decide
  have h7 : decide ("SUBJ".data = ("PROOF:".data).dropLast) = false := by decide
  simp [TAGS, h1, h2, h3, h4, h5, h6, h7]

theorem isSome_extract_INTENT (nline : Str) :
    (alookup "INTENT".data (extractFields nline)).isSome = (pyFind nline "INTENT:".data).isSome := by
  rw [extractFields, alookup_extractLoop_isSome]
  have h1 : decide ("INTENT".data = ("SUBJ:".data).dropLast) = false := by decide
  have h2 : decide ("INTENT".data = ("INTENT:".data).dropLast) = true := by decide
  have h3 : decide ("INTENT".data = ("ACT:".data).dropLast) = false := by decide
  have h4 : decide ("INTENT".data = ("OBJ:".data).dropLast) = false := by decide
  have h5 : decide ("INTENT".data = ("CONSENT:".data).dropLast) = false := by decide
  have h6 : decide ("INTENT".data = ("POLICY:".data).dropLast) = false := by decide
  have h7 : decide ("INTENT".data = ("PROOF:".data).dropLast) = false := by decide
  simp [TAGS, h1, h2, h3, h4, h5, h6, h7]

theorem isSome_extract_ACT (nline : Str) :
    (alookup "ACT".data (extractFields nline)).isSome = (pyFind nline "ACT:".data).isSome := by
  rw [extractFields, alookup_extractLoop_isSome]
  have h1 : decide ("ACT".data = ("SUBJ:".data).dropLast) = false := by decide
  have h2 : decide ("ACT".data = ("INTENT:".data).dropLast) = false := by decide
  have h3 : decide ("ACT".data = ("ACT:".data).dropLast) = true := by decide
  have h4 : decide ("ACT".data = ("OBJ:".data).dropLast) = false := by decide
  have h5 : decide ("ACT".data = ("CONSENT:".data).dropLast) = false := by decide
  have h6 : decide ("ACT".data = ("POLICY:".data).dropLast) = false := by decide
  have h7 : decide ("ACT".data = ("PROOF:".data).dropLast) = false := by decide
  simp [TAGS, h1, h2, h3, h4, h5, h6, h7]

theorem isSome_extract_OBJ (nline : Str) :
    (alookup "OBJ".data (extractFields nline)).isSome = (pyFind nline "OBJ:".data).isSome := by
  rw [extractFields, alookup_extractLoop_isSome]
  have h1 : decide ("OBJ".data = ("SUBJ:".data).dropLast) = false := by decide
  have h2 : decide ("OBJ".data = ("INTENT:".data).dropLast) = false := by decide
  have h3 : decide ("OBJ".data = ("ACT:".data).dropLast) = false := by decide
  have h4 : decide ("OBJ".data = ("OBJ:".data).dropLast) = true := by decide
  have h5 : decide ("OBJ".data = ("CONSENT:".data).dropLast) = false := by decide
  have h6 : decide ("OBJ".data = ("POLICY:".data).dropLast) = false := by decide
  have h7 : decide ("OBJ".data = ("PROOF:".data).dropLast) = false := by decide
  simp [TAGS, h1, h2, h3, h4, h5, h6, h7]

theorem isNone_eq_of_isSome_eq {α β : Type} {o : Option α} {o' : Option β}
    (h : o.isSome = o'.isSome) : o.isNone = o'.isNone := by
  cases o <;> cases o' <;> simp_all

theorem firstMissing_extract (nline : Str) :
    firstMissing (extractFields nline) = missingRequired nline := by
  have q1 : "SUBJ".data ++ [':'] = "SUBJ:".data := by decide
  have q2 : "INTENT".data ++ [':'] = "INTENT:".data := by decide
  have q3 : "ACT".data ++ [':'] = "ACT:".data := by decide
  have q4 : "OBJ".data ++ [':'] = "OBJ:".data := by decide
  have e1 := isNone_eq_of_isSome_eq (isSome_extract_SUBJ nline)
  have e2 := isNone_eq_of_isSome_eq (isSome_extract_INTENT nline)
  have e3 := isNone_eq_of_isSome_eq (isSome_extract_ACT nline)
  have e4 := isNone_eq_of_isSome_eq (isSome_extract_OBJ nline)
  simp only [firstMissing, missingRequired, REQUIRED, firstAbsent, firstNoTag,
    q1, q2, q3, q4, e1, e2, e3, e4]

/-!  Error messages of the component validators. -/

theorem parseSubjField_exits {s : Str} {m : String} (h : parseSubjField s = .exits m) :
    headMatches "ParseError".data m.data = true := by
  unfold parseSubjField at h
  split at h
  · injection h with h'; subst h'; decide
  · split at h
    · exact absurd h (by simp)
    · injection h with h'; subst h'; decide

theorem parseObjField_exits {s : Str} {m : String} (h : parseObjField s = .exits m) :
    headMatches "ParseError".data m.data = true := by
  unfold parseObjField at h
  split at h
  · injection h with h'; subst h'; decide
  · split at h
    · exact absurd h (by simp)
    · injection h with h'; subst h'; decide

theorem parseConsent_exits {s : Str} {m : String} (h : parseConsent s = .exits m) :
    headMatches "ParseError".data m.data = true := by
  unfold parseConsent at h
  split at h
  · injection h with h'; subst h'; decide
  · split at h
    · exact absurd h (by simp)
    · injection h with h'; subst h'; decide

theorem withConsent_exits {parts : List (Str × Str)} {s : Sentence} {m : String}
    (h : withConsent parts s = .exits m) :
    headMatches "ParseError".data m.data = true := by
  unfold withConsent at h
  split at h
  · exact absurd h (by simp)
  · split at h
    · exact absurd h (by simp)
    · split at h
      · injection h with h'
        subst h'
        exact parseConsent_exits (by assumption)
      · exact absurd h (by simp)

theorem procClause_exits {p : Prov} {kv : Str} {m : String} (h : procClause p kv = .exits m) :
    m = "ParseError: PROOF.sha256 must be 64 hex chars" := by
  unfold procClause at h
  split at h
  · exact absurd h (by simp)
  · split at h
    · split at h
      · exact absurd h (by simp)
      · injection h with h'; exact h'.symm
    · split at h
      · exact absurd h (by simp)
      · exact absurd h (by simp)

theorem procProof_exits :
    ∀ (l : List Str) (p : Prov) (m : String),
      procProof p l = .exits m → m = "ParseError: PROOF.sha256 must be 64 hex chars" := by
  intro l
  induction l with
  | nil => intro p m h; exact absurd h (by simp [procProof])
  | cons kv rest ih =>
    intro p m h
    unfold procProof at h
    split at h
    · rename_i m' heq
      injection h with h'
      subst h'
      exact procClause_exits heq
    · exact ih _ _ h

theorem withProof_exits {parts : List (Str × Str)} {s : Sentence} {m : String}
    (h : withProof parts s = .exits m) :
    headMatches "ParseError".data m.data = true := by
  unfold withProof at h
  split at h
  · exact absurd h (by simp)
  · split at h
    · exact absurd h (by simp)
    · split at h
      · injection h with h'
        subst h'
        rename_i heq
        have := procProof_exits _ _ _ heq
        subst this
        decide
      · exact absurd h (by simp)

theorem extractLoop_eq_spec (rest : Str) :
    ∀ tags, extractLoop rest tags =
      (extractLoopSpec rest tags).map (fun p => (p.1, stripChars p.2)) := by
  intro tags
  induction tags with
  | nil => rfl
  | cons tag later ih =>
    simp only [extractLoop, extractLoopSpec, List.map_append, ih]
    cases pyFind rest tag <;> simp

/-!  The PROOF-clause loop: a full characterization. -/

theorem lastVal_cons_isSome : ∀ (c : Str × Str) (t : List (Str × Str)),
    (lastVal (c :: t)).isSome = true := by
  intro c t
  induction t generalizing c with
  | nil => obtain ⟨k, v⟩ := c; rfl
  | cons c2 t2 ih => simpa [lastVal] using ih c2

theorem lastVal_cons (k : Str) (v : Str) (l : List (Str × Str)) :
    lastVal ((k, v) :: l) = optOr (lastVal l) (some v) := by
  cases l with
  | nil => rfl
  | cons c t =>
    have h := lastVal_cons_isSome c t
    cases hl : lastVal (c :: t) with
    | none => rw [hl] at h; simp at h
    | some x => simp [lastVal, hl, optOr]

theorem lastVal_mem : ∀ {l : List (Str × Str)} {v : Str},
    lastVal l = some v → ∃ c ∈ l, c.2 = v := by
  intro l
  induction l with
  | nil => intro v h; simp [lastVal] at h
  | cons c t ih =>
    intro v h
    cases t with
    | nil =>
      obtain ⟨k, v'⟩ := c
      simp [lastVal] at h
      exact ⟨(k, v'), by simp, h⟩
    | cons c2 t2 =>
      simp only [lastVal] at h
      obtain ⟨c', hc', hv⟩ := ih h
      exact ⟨c', List.mem_cons_of_mem _ hc', hv⟩

theorem optOr_none_right (a : Option Str) : optOr a none = a := by
  cases a <;> rfl

theorem optOr_some_absorb (a : Option Str) (v : Str) (b : Option Str) :
    optOr (optOr a (some v)) b = optOr a (some v) := by
  cases a <;> rfl

theorem digKey_not_sigKey {k : Str} (h : isDigKey k = true) : isSigKey k = false := by
  simp only [isDigKey, Bool.or_eq_true, decide_eq_true_eq] at h
  rcases h with h | h <;> subst h <;> decide

theorem sigKey_not_digKey {k : Str} (h : isSigKey k = true) : isDigKey k = false := by
  simp only [isSigKey, Bool.or_eq_true, decide_eq_true_eq] at h
  rcases h with h | h <;> subst h <;> decide

theorem procProof_spec :
    ∀ (kvs : List Str) (prov : Prov),
      (((kvs.filterMap clauseKV).filter (fun c => isDigKey c.1)).all
          (fun c => validDigest c.2) = true →
        procProof prov kvs = .ret
          { sha256 :=
              optOr (lastVal ((kvs.filterMap clauseKV).filter (fun c => isDigKey c.1)))
                prov.sha256,
            sig_ed25519 :=
              optOr (lastVal ((kvs.filterMap clauseKV).filter (fun c => isSigKey c.1)))
                prov.sig_ed25519 }) ∧
      (((kvs.filterMap clauseKV).filter (fun c => isDigKey c.1)).all
          (fun c => validDigest c.2) = false →
        procProof prov kvs = .exits "ParseError: PROOF.sha256 must be 64 hex chars") := by
  intro kvs
  induction kvs with
  | nil =>
    intro prov
    constructor
    · intro _; simp [procProof, optOr, lastVal, List.filterMap_nil]
    · intro h; simp at h
  | cons kv rest ih =>
    intro prov
    cases hc : clauseKV kv with
    | none =>
      have hstep : procProof prov (kv :: rest) = procProof prov rest := by
        simp [procProof, procClause, hc]
      simp only [List.filterMap_cons, hc, hstep]
      exact ih prov
    | some p =>
      obtain ⟨k, v⟩ := p
      by_cases hd : isDigKey k = true
      · have hs : isSigKey k = false := digKey_not_sigKey hd
        by_cases hv : validDigest v = true
        · have hstep :
              procProof prov (kv :: rest) = procProof { prov with sha256 := some v } rest := by
            simp [procProof, procClause, hc, hd, hv]
          have ihp := ih { prov with sha256 := some v }
          constructor
          · intro hall
            simp only [List.filterMap_cons, hc, List.filter_cons, hd, hs, if_true, if_false,
              List.all_cons, hv, Bool.true_and] at hall ⊢
            rw [hstep, ihp.1 hall]
            simp [lastVal_cons, optOr_some_absorb]
          · intro hall
            simp only [List.filterMap_cons, hc, List.filter_cons, hd, hs, if_true, if_false,
              List.all_cons, hv, Bool.true_and] at hall ⊢
            rw [hstep, ihp.2 hall]
        · have hv' : validDigest v = false := by
            cases hvv : validDigest v
            · rfl
            · exact absurd hvv hv
          have hstep :
              procProof prov (kv :: rest) = .exits "ParseError: PROOF.sha256 must be 64 hex chars" := by
            simp [procProof, procClause, hc, hd, hv']
          constructor
          · intro hall
            simp [List.filterMap_cons, hc, List.filter_cons, hd, List.all_cons, hv'] at hall
          · intro _
            exact hstep
      · have hd' : isDigKey k = false := by
          cases hdd : isDigKey k
          · rfl
          · exact absurd hdd hd
        by_cases hsg : isSigKey k = true
        · have hstep :
              procProof prov (kv :: rest) =
                procProof { prov with sig_ed25519 := some v } rest := by
            simp [procProof, procClause, hc, hd', hsg]
          have ihp := ih { prov with sig_ed25519 := some v }
          constructor
          · intro hall
            simp only [List.filterMap_cons, hc, List.filter_cons, hd', hsg, if_true,
              if_false] at hall ⊢
            rw [hstep, ihp.1 hall]
            simp [lastVal_cons, optOr_some_absorb]
          · intro hall
            simp only [List.filterMap_cons, hc, List.filter_cons, hd', hsg, if_true,
              if_false] at hall ⊢
            rw [hstep, ihp.2 hall]
        · have hsg' : isSigKey k = false := by
            cases hss : isSigKey k
            · rfl
            · exact absurd hss hsg
          have hstep : procProof prov (kv :: rest) = procProof prov rest := by
            simp [procProof, procClause, hc, hd', hsg']
          simp only [List.filterMap_cons, hc, List.filter_cons, hd', hsg', if_false, hstep]
          exact ih prov

/-!  The claims. -/

/-- C2: compiling the line SUBJ:Human:alice INTENT:approve ACT:access
OBJ:dataset/d1 succeeds, and the canonical serialization of the resulting
record is exactly the claimed string. -/
theorem c2_compile_canonical :
    parse_line "SUBJ:Human:alice INTENT:approve ACT:access OBJ:dataset/d1".data =
      PyResult.ret
        { subj_kind := "Human".data, subj_id := "alice".data, intent := "approve".data,
          act := "access".data, obj_kind := "dataset".data, obj_id := "d1".data,
          consent := none, policy := none, provenance := none } ∧
    canon_json (sentenceToJ
        { subj_kind := "Human".data, subj_id := "alice".data, intent := "approve".data,
          act := "access".data, obj_kind := "dataset".data, obj_id := "d1".data,
          consent := none, policy := none, provenance := none }) =
      "\x7b\"act\":\"access\",\"intent\":\"approve\",\"obj\":\x7b\"id\":\"d1\",\"kind\":\"dataset\"\x7d,\"sentence_type\":\"COOP_SENTENCE\",\"subj\":\x7b\"id\":\"alice\",\"kind\":\"Human\"\x7d,\"v\":\"0.1\"\x7d" := by
  exact ⟨by decide, by decide⟩

/-- C3 counterexample: the claim says an input with an empty subject
identifier (SUBJ:Human:) or empty object identifier (OBJ:dataset/) is
rejected; the code accepts both, with empty id fields. -/
theorem c3_empty_id_accepted :
    parse_line "SUBJ:Human: INTENT:approve ACT:access OBJ:dataset/".data =
      PyResult.ret
        { subj_kind := "Human".data, subj_id := [], intent := "approve".data,
          act := "access".data, obj_kind := "dataset".data, obj_id := [],
          consent := none, policy := none, provenance := none } := by decide

/-- C3 amended: the subject value must split at its first colon and the
object value at its first slash (otherwise the line fails), and the kind
part must belong to the respective enumeration; the identifier part may be
empty: SUBJ:Human: and OBJ:dataset/ are accepted with empty identifiers. -/
theorem c3_decomposition :
    ∀ s : Str,
      (splitOnceOn ':' s = none →
        parseSubjField s = .exits "ParseError: SUBJ must look like Kind:identifier") ∧
      (∀ k i, parseSubjField s = .ret (k, i) →
        s = k ++ ':' :: i ∧ ':' ∉ k ∧ k ∈ ALLOWED_KIND) ∧
      (splitOnceOn '/' s = none →
        parseObjField s = .exits "ParseError: OBJ must look like kind/id") ∧
      (∀ k i, parseObjField s = .ret (k, i) →
        s = k ++ '/' :: i ∧ '/' ∉ k ∧ k ∈ ALLOWED_OBJK) ∧
      parseSubjField "Human:".data = .ret ("Human".data, []) ∧
      parseObjField "dataset/".data = .ret ("dataset".data, []) := by
  intro s
  refine ⟨?_, ?_, ?_, ?_, by decide, by decide⟩
  · intro h; simp [parseSubjField, h]
  · intro k i h
    unfold parseSubjField at h
    split at h
    · exact absurd h (by simp)
    · rename_i kind sid heq
      split at h
      · rename_i hmem
        injection h with h'
        have hk : kind = k := congrArg Prod.fst h'
        have hi : sid = i := congrArg Prod.snd h'
        subst hk; subst hi
        obtain ⟨hs, hnot⟩ := splitOnceOn_eq heq
        exact ⟨hs, hnot, hmem⟩
      · exact absurd h (by simp)
  · intro h; simp [parseObjField, h]
  · intro k i h
    unfold parseObjField at h
    split at h
    · exact absurd h (by simp)
    · rename_i kind oid heq
      split at h
      · rename_i hmem
        injection h with h'
        have hk : kind = k := congrArg Prod.fst h'
        have hi : oid = i := congrArg Prod.snd h'
        subst hk; subst hi
        obtain ⟨hs, hnot⟩ := splitOnceOn_eq heq
        exact ⟨hs, hnot, hmem⟩
      · exact absurd h (by simp)

/-- C3 witness for the amended claim, at an input with no colon. -/
theorem c3_decomposition_witness :
    parseSubjField "Human".data = .exits "ParseError: SUBJ must look like Kind:identifier" :=
  (c3_decomposition "Human".data).1 (by decide)

/-- C4: when a required marker is absent from the (normalized) line, parsing
fails naming exactly the first missing field in the fixed order SUBJ,
INTENT, ACT, OBJ, and no record is returned. -/
theorem c4_missing_required :
    ∀ (line : Str) (k : Str),
      missingRequired (normalizeLine line) = some k →
      parse_line line = .exits ("ParseError: missing required field " ++ String.mk k) := by
  intro line k h
  simp [parse_line, firstMissing_extract, h]

/-- C4 witness: a line lacking OBJ fails naming OBJ. -/
theorem c4_missing_required_witness :
    missingRequired (normalizeLine "SUBJ:Human:alice INTENT:approve ACT:access".data) =
      some "OBJ".data ∧
    parse_line "SUBJ:Human:alice INTENT:approve ACT:access".data =
      .exits ("ParseError: missing required field " ++ String.mk "OBJ".data) :=
  ⟨by decide, c4_missing_required _ _ (by decide)⟩

/-- C7 counterexample: the claim describes the mapped value of a tag as the
raw substring up to the next occurring tag; the code additionally trims it.
On the round-trip example line the raw SUBJ segment ends in a space. -/
theorem c7_value_is_trimmed_cex :
    alookup "SUBJ".data (extractFields
      (normalizeLine "SUBJ:Human:alice INTENT:approve ACT:access OBJ:dataset/d1".data)) =
      some "Human:alice".data ∧
    alookup "SUBJ".data (extractLoopSpec
      (normalizeLine "SUBJ:Human:alice INTENT:approve ACT:access OBJ:dataset/d1".data) TAGS) =
      some "Human:alice ".data ∧
    ("Human:alice".data : Str) ≠ "Human:alice ".data := by
  exact ⟨by decide, by decide, by decide⟩

/-- C7 amended: after whitespace normalization, the extractor produces
exactly the mapping the claim describes, except that each value is
additionally stripped of leading and trailing whitespace. -/
theorem c7_extractor : ∀ line : Str,
    extractFields (normalizeLine line) =
      (extractLoopSpec (normalizeLine line) TAGS).map (fun p => (p.1, stripChars p.2)) :=
  fun line => extractLoop_eq_spec (normalizeLine line) TAGS

/-- C8 counterexample: on an invalid line the parsing layer terminates the
process (sys.exit, modelled by PyResult.exits) instead of returning a typed
failure value to its caller. -/
theorem c8_exit_on_invalid_cex :
    parse_line "SUBJ:Human:alice".data =
      PyResult.exits "ParseError: missing required field INTENT" := by decide

/-- C8 amended: for every invalid input line the parsing layer terminates
the process via sys.exit with a message beginning ParseError; no partial
record is returned to the caller. -/
theorem c8_exits_with_parse_error : ∀ (line : Str) (m : String),
    parse_line line = .exits m → headMatches "ParseError".data m.data = true := by
  intro line m h
  simp only [parse_line] at h
  split at h
  · injection h with h'
    subst h'
    rw [str_data_append]
    exact headMatches_append _ _ _ (by decide)
  · split at h
    · rename_i m' heq
      injection h with h'
      subst h'
      exact parseSubjField_exits heq
    · split at h
      · injection h with h'; subst h'; decide
      · split at h
        · injection h with h'; subst h'; decide
        · split at h
          · rename_i m' heq
            injection h with h'
            subst h'
            exact parseObjField_exits heq
          · split at h
            · rename_i m' heq
              injection h with h'
              subst h'
              exact withConsent_exits heq
            · exact withProof_exits h

/-- C8 witness for the amended claim. -/
theorem c8_exits_with_parse_error_witness :
    headMatches "ParseError".data ("ParseError: missing required field SUBJ" : String).data = true :=
  c8_exits_with_parse_error "x".data "ParseError: missing required field SUBJ" (by decide)

/-- C5: a line whose PROOF field contains a digest clause fails unless the
digest is exactly 64 hex characters; a valid digest is stored verbatim
(case unchanged, as trimmed from the clause) in provenance.sha256.  The two
closed conjuncts check this end to end: a 64-character mixed-case digest is
accepted and preserved verbatim, the same digest with 63 characters fails. -/
theorem c5_digest_validation :
    ∀ p : Str,
      ((∃ c ∈ digestClauses p, validDigest c.2 = false) →
        parseProof p = .exits "ParseError: PROOF.sha256 must be 64 hex chars") ∧
      (∀ prov, parseProof p = .ret prov →
        prov.sha256 = lastVal (digestClauses p) ∧
        ∀ v, prov.sha256 = some v → validDigest v = true) ∧
      parse_line "SUBJ:Human:alice INTENT:approve ACT:access OBJ:dataset/d1 PROOF:sha256=ABCDEF0123456789ABCDEF0123456789ABCDEF0123456789ABCDEF0123456789".data =
        .ret { subj_kind := "Human".data, subj_id := "alice".data, intent := "approve".data,
               act := "access".data, obj_kind := "dataset".data, obj_id := "d1".data,
               consent := none, policy := none,
               provenance := some
                 { sha256 := some "ABCDEF0123456789ABCDEF0123456789ABCDEF0123456789ABCDEF0123456789".data,
                   sig_ed25519 := none } } ∧
      parse_line "SUBJ:Human:alice INTENT:approve ACT:access OBJ:dataset/d1 PROOF:sha256=ABCDEF0123456789ABCDEF0123456789ABCDEF0123456789ABCDEF012345678".data =
        .exits "ParseError: PROOF.sha256 must be 64 hex chars" := by
  intro p
  have spec := procProof_spec (splitAllOn ';' p) { sha256 := none, sig_ed25519 := none }
  refine ⟨?_, ?_, by decide, by decide⟩
  · intro hex
    have hall : (digestClauses p).all (fun c => validDigest c.2) = false := by
      obtain ⟨c, hc, hv⟩ := hex
      cases h : (digestClauses p).all (fun c => validDigest c.2)
      · rfl
      · have := List.all_eq_true.mp h c hc
        rw [hv] at this
        exact absurd this (by simp)
    exact spec.2 hall
  · intro prov h
    cases hall : (digestClauses p).all (fun c => validDigest c.2)
    · have hx : parseProof p = .exits "ParseError: PROOF.sha256 must be 64 hex chars" :=
        spec.2 hall
      rw [h] at hx
      exact absurd hx (by simp)
    · have hx : parseProof p = .ret
          { sha256 := optOr (lastVal (digestClauses p)) none,
            sig_ed25519 := optOr (lastVal (sigClauses p)) none } := spec.1 hall
      rw [h] at hx
      injection hx with hx'
      subst hx'
      refine ⟨optOr_none_right _, ?_⟩
      intro v hv
      have hv' : lastVal (digestClauses p) = some v := by
        rw [← optOr_none_right (lastVal (digestClauses p))]
        exact hv
      obtain ⟨c, hc, hcv⟩ := lastVal_mem hv'
      have := List.all_eq_true.mp hall c hc
      rw [hcv] at this
      exact this

/-- C5 witness: a digest clause with a 2-character value fails the line. -/
theorem c5_digest_validation_witness :
    parseProof "sha256=ab".data = .exits "ParseError: PROOF.sha256 must be 64 hex chars" :=
  (c5_digest_validation "sha256=ab".data).1 (by decide)

/-- C9: PROOF clauses are processed left to right and a later clause of the
same output key overwrites an earlier one (the record keeps the last value,
for the digest key under either spelling and the signature key under either
spelling), while an invalid digest clause fails the line even when a later
clause would have overwritten it. -/
theorem c9_overwrite :
    ∀ p : Str,
      (∀ prov, parseProof p = .ret prov →
        prov.sha256 = lastVal (digestClauses p) ∧
        prov.sig_ed25519 = lastVal (sigClauses p)) ∧
      ((∃ c ∈ digestClauses p, validDigest c.2 = false) →
        parseProof p = .exits "ParseError: PROOF.sha256 must be 64 hex chars") ∧
      parseProof "sha256=aaaaaaaaaaaaaaaaaaaaaaaaaaaaaaaaaaaaaaaaaaaaaaaaaaaaaaaaaaaaaaaa;hash=bbbbbbbbbbbbbbbbbbbbbbbbbbbbbbbbbbbbbbbbbbbbbbbbbbbbbbbbbbbbbbbb".data =
        .ret { sha256 :=
                 some "bbbbbbbbbbbbbbbbbbbbbbbbbbbbbbbbbbbbbbbbbbbbbbbbbbbbbbbbbbbbbbbb".data,
               sig_ed25519 := none } ∧
      parseProof "sig=s1;sig_ed25519=s2".data =
        .ret { sha256 := none, sig_ed25519 := some "s2".data } ∧
      parseProof "sha256=zz;hash=bbbbbbbbbbbbbbbbbbbbbbbbbbbbbbbbbbbbbbbbbbbbbbbbbbbbbbbbbbbbbbbb".data =
        .exits "ParseError: PROOF.sha256 must be 64 hex chars" := by
  intro p
  have spec := procProof_spec (splitAllOn ';' p) { sha256 := none, sig_ed25519 := none }
  refine ⟨?_, ?_, by decide, by decide, by decide⟩
  · intro prov h
    cases hall : (digestClauses p).all (fun c => validDigest c.2)
    · have hx : parseProof p = .exits "ParseError: PROOF.sha256 must be 64 hex chars" :=
        spec.2 hall
      rw [h] at hx
      exact absurd hx (by simp)
    · have hx : parseProof p = .ret
          { sha256 := optOr (lastVal (digestClauses p)) none,
            sig_ed25519 := optOr (lastVal (sigClauses p)) none } := spec.1 hall
      rw [h] at hx
      injection hx with hx'
      subst hx'
      exact ⟨optOr_none_right _, optOr_none_right _⟩
  · intro hex
    have hall : (digestClauses p).all (fun c => validDigest c.2) = false := by
      obtain ⟨c, hc, hv⟩ := hex
      cases h : (digestClauses p).all (fun c => validDigest c.2)
      · rfl
      · have := List.all_eq_true.mp h c hc
        rw [hv] at this
        exact absurd this (by simp)
    exact spec.2 hall

/-- C9 witness: with two digest clauses, the record keeps the last value. -/
theorem c9_overwrite_witness :
    ({ sha256 :=
         some "bbbbbbbbbbbbbbbbbbbbbbbbbbbbbbbbbbbbbbbbbbbbbbbbbbbbbbbbbbbbbbbb".data,
       sig_ed25519 := none } : Prov).sha256 =
      lastVal (digestClauses "sha256=aaaaaaaaaaaaaaaaaaaaaaaaaaaaaaaaaaaaaaaaaaaaaaaaaaaaaaaaaaaaaaaa;hash=bbbbbbbbbbbbbbbbbbbbbbbbbbbbbbbbbbbbbbbbbbbbbbbbbbbbbbbbbbbbbbbb".data) ∧
    ({ sha256 :=
         some "bbbbbbbbbbbbbbbbbbbbbbbbbbbbbbbbbbbbbbbbbbbbbbbbbbbbbbbbbbbbbbbb".data,
       sig_ed25519 := none } : Prov).sig_ed25519 =
      lastVal (sigClauses "sha256=aaaaaaaaaaaaaaaaaaaaaaaaaaaaaaaaaaaaaaaaaaaaaaaaaaaaaaaaaaaaaaaa;hash=bbbbbbbbbbbbbbbbbbbbbbbbbbbbbbbbbbbbbbbbbbbbbbbbbbbbbbbbbbbbbbbb".data) :=
  (c9_overwrite "sha256=aaaaaaaaaaaaaaaaaaaaaaaaaaaaaaaaaaaaaaaaaaaaaaaaaaaaaaaaaaaaaaaa;hash=bbbbbbbbbbbbbbbbbbbbbbbbbbbbbbbbbbbbbbbbbbbbbbbbbbbbbbbbbbbbbbbb".data).1
    { sha256 :=
        some "bbbbbbbbbbbbbbbbbbbbbbbbbbbbbbbbbbbbbbbbbbbbbbbbbbbbbbbbbbbbbbbb".data,
      sig_ed25519 := none } (by decide)

/-- C10: a signature clause's value undergoes no validation: whenever no
digest clause is invalid the line's PROOF processing returns, storing the
trimmed value of the last signature clause verbatim under sig_ed25519; and
(closed conjunct) the clause PROOF:sig= alone, with empty value, makes the
provenance field present with sig_ed25519 equal to the empty string. -/
theorem c10_sig_verbatim :
    ∀ p : Str,
      ((∀ c ∈ digestClauses p, validDigest c.2 = true) →
        ∃ prov, parseProof p = .ret prov ∧ prov.sig_ed25519 = lastVal (sigClauses p)) ∧
      parse_line "SUBJ:Human:alice INTENT:approve ACT:access OBJ:dataset/d1 PROOF:sig=".data =
        .ret { subj_kind := "Human".data, subj_id := "alice".data, intent := "approve".data,
               act := "access".data, obj_kind := "dataset".data, obj_id := "d1".data,
               consent := none, policy := none,
               provenance := some { sha256 := none, sig_ed25519 := some [] } } := by
  intro p
  refine ⟨?_, by decide⟩
  intro hv
  have hall : (digestClauses p).all (fun c => validDigest c.2) = true :=
    List.all_eq_true.mpr hv
  have spec := procProof_spec (splitAllOn ';' p) { sha256 := none, sig_ed25519 := none }
  have hx : parseProof p = .ret
      { sha256 := optOr (lastVal (digestClauses p)) none,
        sig_ed25519 := optOr (lastVal (sigClauses p)) none } := spec.1 hall
  exact ⟨_, hx, optOr_none_right _⟩

/-- C10 witness: an empty signature clause alone yields a provenance record. -/
theorem c10_sig_verbatim_witness :
    ∃ prov, parseProof "sig=".data = .ret prov ∧
      prov.sig_ed25519 = lastVal (sigClauses "sig=".data) :=
  (c10_sig_verbatim "sig=".data).1 (by decide)

/-!  Order lemmas for the code-point lexicographic order on keys. -/

theorem char_eq_of_toNat_eq {a b : Char} (h : a.toNat = b.toNat) : a = b :=
  Char.ext (UInt32.toNat.inj h)

theorem strLt_irrefl : ∀ s : Str, strLt s s = false := by
  intro s
  induction s with
  | nil => rfl
  | cons c t ih => simp [strLt, ih]

theorem strLt_asymm : ∀ a b : Str, strLt a b = true → strLt b a = false := by
  intro a
  induction a with
  | nil =>
    intro b h
    cases b with
    | nil => simp [strLt] at h
    | cons d u => rfl
  | cons c t ih =>
    intro b h
    cases b with
    | nil => simp [strLt] at h
    | cons d u =>
      simp only [strLt] at h ⊢
      by_cases h1 : c.toNat < d.toNat
      · rw [if_neg (Nat.lt_asymm h1), if_pos h1]
      · rw [if_neg h1] at h
        by_cases h2 : d.toNat < c.toNat
        · rw [if_pos h2] at h; exact absurd h (by simp)
        · rw [if_neg h2] at h
          rw [if_neg h2, if_neg h1]
          exact ih u h

theorem strLt_eq_of_not : ∀ a b : Str, strLt a b = false → strLt b a = false → a = b := by
  intro a
  induction a with
  | nil =>
    intro b h1 _
    cases b with
    | nil => rfl
    | cons d u => simp [strLt] at h1
  | cons c t ih =>
    intro b h1 h2
    cases b with
    | nil => simp [strLt] at h2
    | cons d u =>
      simp only [strLt] at h1 h2
      by_cases hc : c.toNat < d.toNat
      · rw [if_pos hc] at h1; exact absurd h1 (by simp)
      · by_cases hd : d.toNat < c.toNat
        · rw [if_pos hd] at h2; exact absurd h2 (by simp)
        · rw [if_neg hc, if_neg hd] at h1
          have hcd : c = d := char_eq_of_toNat_eq (by omega)
          subst hcd
          rw [if_neg hc, if_neg hd] at h2
          rw [ih u h1 h2]

theorem strLt_trans : ∀ a b c : Str, strLt a b = true → strLt b c = true → strLt a c = true := by
  intro a
  induction a with
  | nil =>
    intro b c h1 h2
    cases b with
    | nil => simp [strLt] at h1
    | cons d u =>
      cases c with
      | nil => simp [strLt] at h2
      | cons e w => rfl
  | cons c1 t1 ih =>
    intro b c h1 h2
    cases b with
    | nil => simp [strLt] at h1
    | cons c2 t2 =>
      cases c with
      | nil => simp [strLt] at h2
      | cons c3 t3 =>
        simp only [strLt] at h1 h2 ⊢
        by_cases ha : c1.toNat < c2.toNat
        · by_cases hb : c2.toNat < c3.toNat
          · rw [if_pos (Nat.lt_trans ha hb)]
          · by_cases hb' : c3.toNat < c2.toNat
            · rw [if_neg hb, if_pos hb'] at h2; exact absurd h2 (by simp)
            · have : c2 = c3 := char_eq_of_toNat_eq (by omega)
              subst this
              rw [if_pos ha]
        · by_cases ha' : c2.toNat < c1.toNat
          · rw [if_neg ha, if_pos ha'] at h1; exact absurd h1 (by simp)
          · have hc12 : c1 = c2 := char_eq_of_toNat_eq (by omega)
            subst hc12
            rw [if_neg ha, if_neg ha'] at h1
            by_cases hb : c1.toNat < c3.toNat
            · rw [if_pos hb]
            · by_cases hb' : c3.toNat < c1.toNat
              · rw [if_neg hb, if_pos hb'] at h2; exact absurd h2 (by simp)
              · rw [if_neg hb, if_neg hb'] at h2 ⊢
                exact ih t2 t3 h1 h2

/-!  The key sort: permutation and sortedness. -/

theorem insertPair_perm (p : Str × Str) : ∀ l, (insertPair p l).Perm (p :: l) := by
  intro l
  induction l with
  | nil => exact List.Perm.refl _
  | cons q t ih =>
    simp only [insertPair]
    by_cases h : strLt p.1 q.1 = true
    · rw [if_pos h]
    · rw [if_neg h]
      exact (ih.cons q).trans (List.Perm.swap p q t)

theorem sortRendered_perm : ∀ l, (sortRendered l).Perm l := by
  intro l
  induction l with
  | nil => exact List.Perm.refl _
  | cons p t ih => exact (insertPair_perm p (sortRendered t)).trans (ih.cons p)

theorem pairwise_insertPair (p : Str × Str) :
    ∀ l, List.Pairwise (fun x y : Str × Str => strLt y.1 x.1 = false) l →
      List.Pairwise (fun x y : Str × Str => strLt y.1 x.1 = false) (insertPair p l) := by
  intro l
  induction l with
  | nil => intro _; simp [insertPair]
  | cons q t ih =>
    intro hp
    rw [List.pairwise_cons] at hp
    obtain ⟨hq, ht⟩ := hp
    simp only [insertPair]
    by_cases h : strLt p.1 q.1 = true
    · rw [if_pos h, List.pairwise_cons]
      constructor
      · intro r hr
        rcases List.mem_cons.mp hr with hr | hr
        · subst hr; exact strLt_asymm _ _ h
        · cases hrp : strLt r.1 p.1
          · rfl
          · have := strLt_trans _ _ _ hrp h
            rw [hq r hr] at this
            exact absurd this (by simp)
      · exact List.pairwise_cons.mpr ⟨hq, ht⟩
    · rw [if_neg h, List.pairwise_cons]
      constructor
      · intro r hr
        have hr' : r ∈ p :: t := (insertPair_perm p t).mem_iff.mp hr
        rcases List.mem_cons.mp hr' with hr' | hr'
        · subst hr'
          cases hh : strLt r.1 q.1
          · rfl
          · exact absurd hh h
        · exact hq r hr'
      · exact ih ht

theorem pairwise_sortRendered :
    ∀ l, List.Pairwise (fun x y : Str × Str => strLt y.1 x.1 = false) (sortRendered l) := by
  intro l
  induction l with
  | nil => simp [sortRendered]
  | cons p t ih => exact pairwise_insertPair p _ ih

/-!  Association-list lookups under permutation and sortedness. -/

theorem alookup_some_mem {α : Type} :
    ∀ {l : List (Str × α)} {k : Str} {v : α}, alookup k l = some v → (k, v) ∈ l := by
  intro l
  induction l with
  | nil => intro k v h; simp [alookup] at h
  | cons q t ih =>
    intro k v h
    obtain ⟨k', v'⟩ := q
    by_cases hk : k = k'
    · subst hk
      simp [alookup] at h
      subst h
      exact List.mem_cons_self _ _
    · simp only [alookup, if_neg hk] at h
      exact List.mem_cons_of_mem _ (ih h)

theorem alookup_eq_none {α : Type} :
    ∀ {l : List (Str × α)} {k : Str}, (∀ r ∈ l, r.1 ≠ k) → alookup k l = none := by
  intro l
  induction l with
  | nil => intro k _; rfl
  | cons q t ih =>
    intro k h
    obtain ⟨k', v'⟩ := q
    have hne : k ≠ k' := fun hh => (h (k', v') (List.mem_cons_self _ _)) hh.symm
    simp only [alookup, if_neg hne]
    exact ih (fun r hr => h r (List.mem_cons_of_mem _ hr))

theorem alookup_perm {α : Type} :
    ∀ {l1 l2 : List (Str × α)}, l1.Perm l2 → (l1.map Prod.fst).Nodup →
      ∀ k, alookup k l1 = alookup k l2 := by
  intro l1 l2 h
  induction h with
  | nil => intro _ _; rfl
  | cons x h ih =>
    intro hnd k
    obtain ⟨x1, x2⟩ := x
    simp only [List.map_cons, List.nodup_cons] at hnd
    simp only [alookup]
    by_cases hk : k = x1
    · rw [if_pos hk, if_pos hk]
    · rw [if_neg hk, if_neg hk]
      exact ih hnd.2 k
  | swap x y l =>
    intro hnd k
    obtain ⟨x1, x2⟩ := x
    obtain ⟨y1, y2⟩ := y
    simp only [List.map_cons, List.nodup_cons, List.mem_cons] at hnd
    have hxy : y1 ≠ x1 := fun hh => hnd.1 (Or.inl hh)
    simp only [alookup]
    by_cases hky : k = y1
    · rw [if_pos hky, if_neg (hky ▸ hxy ∘ Eq.symm ∘ Eq.symm)]
      · rw [if_pos hky]
    · by_cases hkx : k = x1
      · rw [if_neg hky, if_pos hkx, if_pos hkx]
      · rw [if_neg hky, if_neg hkx, if_neg hkx, if_neg hky]
  | trans h1 h2 ih1 ih2 =>
    intro hnd k
    rw [ih1 hnd k]
    exact ih2 (((h1.map Prod.fst).nodup_iff).mp hnd) k

theorem sorted_alists_eq :
    ∀ (l1 l2 : List (Str × Str)),
      List.Pairwise (fun x y : Str × Str => strLt x.1 y.1 = true) l1 →
      List.Pairwise (fun x y : Str × Str => strLt x.1 y.1 = true) l2 →
      (∀ k, alookup k l1 = alookup k l2) → l1 = l2 := by
  intro l1
  induction l1 with
  | nil =>
    intro l2 _ _ hk
    cases l2 with
    | nil => rfl
    | cons q t =>
      obtain ⟨k2, v2⟩ := q
      have := hk k2
      simp [alookup] at this
  | cons p t1 ih =>
    intro l2 hs1 hs2 hk
    obtain ⟨k1, v1⟩ := p
    cases l2 with
    | nil =>
      have := hk k1
      simp [alookup] at this
    | cons q t2 =>
      obtain ⟨k2, v2⟩ := q
      rw [List.pairwise_cons] at hs1 hs2
      have hkey : k1 = k2 := by
        by_contra hne
        have h1 : alookup k1 ((k2, v2) :: t2) = some v1 := by
          rw [← hk k1]; simp [alookup]
        simp only [alookup, if_neg hne] at h1
        have hlt1 : strLt k2 k1 = true := hs2.1 _ (alookup_some_mem h1)
        have h2 : alookup k2 ((k1, v1) :: t1) = some v2 := by
          rw [hk k2]; simp [alookup]
        have hne' : k2 ≠ k1 := fun hh => hne hh.symm
        simp only [alookup, if_neg hne'] at h2
        have hlt2 : strLt k1 k2 = true := hs1.1 _ (alookup_some_mem h2)
        rw [strLt_asymm _ _ hlt1] at hlt2
        exact absurd hlt2 (by simp)
      subst hkey
      have hv : v1 = v2 := by
        have := hk k1
        simp [alookup] at this
        exact this
      subst hv
      have htail : t1 = t2 := by
        apply ih t2 hs1.2 hs2.2
        intro k
        by_cases hkk : k = k1
        · subst hkk
          have e1 : alookup k t1 = none := alookup_eq_none (fun r hr hcontra => by
            have := hs1.1 r hr
            rw [hcontra, strLt_irrefl] at this
            exact absurd this (by simp))
          have e2 : alookup k t2 = none := alookup_eq_none (fun r hr hcontra => by
            have := hs2.1 r hr
            rw [hcontra, strLt_irrefl] at this
            exact absurd this (by simp))
          rw [e1, e2]
        · have := hk k
          simp only [alookup, if_neg hkk] at this
          exact this
      rw [htail]

/-!  Object-model bridge lemmas. -/

theorem alookup_canonKV : ∀ (o : JObj) (k : Str),
    alookup k (canonKV o) = (alookupO k o).map canon
  | .nil, k => by simp [canonKV, alookupO, alookup]
  | .cons k' v t, k => by
    by_cases hk : k = k'
    · simp [canonKV, alookupO, alookup, hk]
    · simp [canonKV, alookupO, alookup, hk, alookup_canonKV t k]

theorem keys_canonKV : ∀ (o : JObj), (canonKV o).map Prod.fst = keysO o
  | .nil => rfl
  | .cons k v t => by simp [canonKV, keysO, keys_canonKV t]

theorem alookupO_none_not_mem : ∀ (t : JObj) (k : Str),
    (alookupO k t).isNone = true → k ∉ keysO t
  | .nil, k => by simp [keysO]
  | .cons k' v t, k => by
    intro h
    by_cases hk : k = k'
    · simp [alookupO, hk] at h
    · simp only [alookupO, if_neg hk] at h
      simp only [keysO, List.mem_cons]
      rintro (h1 | h1)
      · exact hk h1
      · exact alookupO_none_not_mem t k h h1

theorem nodupKeysO_nodup : ∀ (o : JObj), nodupKeysO o = true → (keysO o).Nodup
  | .nil => by intro _; simp [keysO]
  | .cons k v t => by
    intro h
    simp only [nodupKeysO, Bool.and_eq_true] at h
    simp only [keysO, List.nodup_cons]
    exact ⟨alookupO_none_not_mem t k h.1, nodupKeysO_nodup t h.2⟩

theorem wfO_lookup : ∀ (o : JObj) (k : Str) (v : J),
    wfO o = true → alookupO k o = some v → wfJ v = true
  | .nil, k, v => by intro _ h; simp [alookupO] at h
  | .cons k' v' t, k, v => by
    intro hw h
    simp only [wfO, Bool.and_eq_true] at hw
    by_cases hk : k = k'
    · simp only [alookupO, if_pos hk, Option.some.injEq] at h
      rw [← h]
      exact hw.1
    · simp only [alookupO, if_neg hk] at h
      exact wfO_lookup t k v hw.2 h

theorem alookupO_sizeOf : ∀ (o : JObj) (k : Str) (v : J),
    alookupO k o = some v → sizeOf v < sizeOf o
  | .nil, k, v => by intro h; simp [alookupO] at h
  | .cons k' v' t, k, v => by
    intro h
    by_cases hk : k = k'
    · simp only [alookupO, if_pos hk, Option.some.injEq] at h
      subst h
      simp
      omega
    · simp only [alookupO, if_neg hk] at h
      have := alookupO_sizeOf t k v h
      simp
      omega

theorem structEqO_lookup : ∀ (t o : JObj), structEqO t o = true →
    ∀ (k : Str) (v : J), alookupO k t = some v →
      ∃ v', alookupO k o = some v' ∧ structEq v v' = true
  | .nil, o => by intro _ k v h; simp [alookupO] at h
  | .cons k0 v0 t, o => by
    intro he k v h
    simp only [structEqO, Bool.and_eq_true] at he
    by_cases hk : k = k0
    · simp only [alookupO, if_pos hk, Option.some.injEq] at h
      subst h
      cases hvo : alookupO k0 o with
      | none => rw [hvo] at he; simp at he
      | some v' =>
        rw [hvo] at he
        subst hk
        exact ⟨v', hvo, he.1⟩
    · simp only [alookupO, if_neg hk] at h
      exact structEqO_lookup t o he.2 k v h

theorem keysSub_lookup : ∀ (o' o : JObj), keysSub o' o = true →
    ∀ k : Str, (alookupO k o').isSome = true → (alookupO k o).isSome = true
  | .nil, o => by intro _ k h; simp [alookupO] at h
  | .cons k0 v0 t, o => by
    intro hs k h
    simp only [keysSub, Bool.and_eq_true] at hs
    by_cases hk : k = k0
    · subst hk; exact hs.1
    · simp only [alookupO, if_neg hk] at h
      exact keysSub_lookup t o hs.2 k h

theorem pairwise_strict_of_nodup (l : List (Str × Str)) (hnd : (l.map Prod.fst).Nodup)
    (hp : List.Pairwise (fun x y : Str × Str => strLt y.1 x.1 = false) l) :
    List.Pairwise (fun x y : Str × Str => strLt x.1 y.1 = true) l := by
  have hne : List.Pairwise (fun x y : Str × Str => x.1 ≠ y.1) l := List.pairwise_map.mp hnd
  refine (hp.and hne).imp ?_
  intro a b hab
  cases hval : strLt a.1 b.1
  · exact absurd (strLt_eq_of_not _ _ hval hab.1) hab.2
  · rfl

/-!  Structurally equal well-formed records have equal canonical output. -/

theorem canonL_eq_aux (n : Nat)
    (ih : ∀ a b : J, sizeOf a < n → wfJ a = true → wfJ b = true → structEq a b = true →
      canon a = canon b) :
    ∀ (xs ys : JList), sizeOf xs < n → wfL xs = true → wfL ys = true →
      structEqL xs ys = true → canonL xs = canonL ys
  | .nil, .nil => by intro _ _ _ _; rfl
  | .nil, .cons y ys => by intro _ _ _ he; simp [structEqL] at he
  | .cons x xs, .nil => by intro _ _ _ he; simp [structEqL] at he
  | .cons x xs, .cons y ys => by
    intro hs w1 w2 he
    simp only [structEqL, Bool.and_eq_true] at he
    simp only [wfL, Bool.and_eq_true] at w1 w2
    have hsz : sizeOf (JList.cons x xs) = 1 + sizeOf x + sizeOf xs := by simp
    have hx : sizeOf x < n := by omega
    have hxs : sizeOf xs < n := by omega
    simp only [canonL]
    rw [ih x y hx w1.1 w2.1 he.1, canonL_eq_aux n ih xs ys hxs w1.2 w2.2 he.2]

theorem canonEq_aux : ∀ n : Nat, ∀ a b : J, sizeOf a < n → wfJ a = true → wfJ b = true →
    structEq a b = true → canon a = canon b := by
  intro n
  induction n with
  | zero => intro a b h _ _ _; omega
  | succ n ih =>
    intro a b hs wa wb he
    cases a with
    | str s =>
      cases b with
      | str t =>
        have : s = t := by simpa [structEq] using he
        rw [this]
      | arr ys => simp [structEq] at he
      | obj o => simp [structEq] at he
    | arr xs =>
      cases b with
      | str t => simp [structEq] at he
      | arr ys =>
        have hxs : sizeOf xs < n := by
          have : sizeOf (J.arr xs) = 1 + sizeOf xs := by simp
          omega
        have hxy : canonL xs = canonL ys :=
          canonL_eq_aux n ih xs ys hxs (by simpa [wfJ] using wa) (by simpa [wfJ] using wb)
            (by simpa [structEq] using he)
        simp [canon, hxy]
      | obj o => simp [structEq] at he
    | obj kvs =>
      cases b with
      | str t => simp [structEq] at he
      | arr ys => simp [structEq] at he
      | obj o =>
        simp only [structEq, Bool.and_eq_true] at he
        obtain ⟨heq, hsub⟩ := he
        simp only [wfJ, Bool.and_eq_true] at wa wb
        obtain ⟨hnd1, hw1⟩ := wa
        obtain ⟨hnd2, hw2⟩ := wb
        have hlk : ∀ k, alookup k (canonKV kvs) = alookup k (canonKV o) := by
          intro k
          rw [alookup_canonKV, alookup_canonKV]
          cases hv : alookupO k kvs with
          | some v =>
            obtain ⟨v', hv', hse⟩ := structEqO_lookup kvs o heq k v hv
            rw [hv']
            have hszv : sizeOf v < n := by
              have h1 := alookupO_sizeOf kvs k v hv
              have h2 : sizeOf (J.obj kvs) = 1 + sizeOf kvs := by simp
              omega
            have hc := ih v v' hszv (wfO_lookup kvs k v hw1 hv) (wfO_lookup o k v' hw2 hv') hse
            simp [hc]
          | none =>
            cases hv2 : alookupO k o with
            | none => rfl
            | some v' =>
              have h1 : (alookupO k o).isSome = true := by rw [hv2]; rfl
              have h2 := keysSub_lookup o kvs hsub k h1
              rw [hv] at h2
              simp at h2
        have hnd1' : ((canonKV kvs).map Prod.fst).Nodup := by
          rw [keys_canonKV]; exact nodupKeysO_nodup kvs hnd1
        have hnd2' : ((canonKV o).map Prod.fst).Nodup := by
          rw [keys_canonKV]; exact nodupKeysO_nodup o hnd2
        have hnsr1 : ((sortRendered (canonKV kvs)).map Prod.fst).Nodup :=
          (((sortRendered_perm (canonKV kvs)).map Prod.fst).nodup_iff).mpr hnd1'
        have hnsr2 : ((sortRendered (canonKV o)).map Prod.fst).Nodup :=
          (((sortRendered_perm (canonKV o)).map Prod.fst).nodup_iff).mpr hnd2'
        have hs1 := pairwise_strict_of_nodup _ hnsr1 (pairwise_sortRendered (canonKV kvs))
        have hs2 := pairwise_strict_of_nodup _ hnsr2 (pairwise_sortRendered (canonKV o))
        have hlk' : ∀ k,
            alookup k (sortRendered (canonKV kvs)) = alookup k (sortRendered (canonKV o)) := by
          intro k
          rw [alookup_perm (sortRendered_perm (canonKV kvs)) hnsr1 k,
            alookup_perm (sortRendered_perm (canonKV o)) hnsr2 k]
          exact hlk k
        have hfinal : sortRendered (canonKV kvs) = sortRendered (canonKV o) :=
          sorted_alists_eq _ _ hs1 hs2 hlk'
        simp [canon, hfinal]

/-- C1: for well-formed records (all object keys distinct, as in every Python
dict), structural equality — same keys and same values at every nesting
level, in any insertion order — implies byte-identical canonical output;
canonicalization run twice on the same record trivially yields identical
bytes; and consequently the SHA-256 fingerprints are the identical hex
digest. -/
theorem c1_canonical_determinism :
    ∀ a b : J, wfJ a = true → wfJ b = true → structEq a b = true →
      canon_json a = canon_json a ∧ canon_json a = canon_json b ∧
      fingerprint a = fingerprint b := by
  intro a b wa wb he
  have h := canonEq_aux (sizeOf a + 1) a b (by omega) wa wb he
  exact ⟨rfl, by simp [canon_json, h], by simp [fingerprint, h]⟩

/-- C1 witness: two records with the same fields inserted in opposite orders
canonicalize and fingerprint identically. -/
theorem c1_canonical_determinism_witness :
    canon_json (J.obj (ofListO
        [("subj".data, J.str "alice".data), ("act".data, J.str "access".data)])) =
      canon_json (J.obj (ofListO
        [("act".data, J.str "access".data), ("subj".data, J.str "alice".data)])) ∧
    fingerprint (J.obj (ofListO
        [("subj".data, J.str "alice".data), ("act".data, J.str "access".data)])) =
      fingerprint (J.obj (ofListO
        [("act".data, J.str "access".data), ("subj".data, J.str "alice".data)])) :=
  have h := c1_canonical_determinism
    (J.obj (ofListO [("subj".data, J.str "alice".data), ("act".data, J.str "access".data)]))
    (J.obj (ofListO [("act".data, J.str "access".data), ("subj".data, J.str "alice".data)]))
    (by decide) (by decide) (by decide)
  ⟨h.2.1, h.2.2⟩

/-!  Sorting deeply does not change canonical output (canonical output is
already sorted at every level). -/

theorem canonKV_insertPairJ : ∀ (o : JObj) (k : Str) (v : J),
    canonKV (insertPairJ k v o) = insertPair (k, canon v) (canonKV o)
  | .nil, k, v => rfl
  | .cons k' v' t, k, v => by
    by_cases h : strLt k k' = true
    · simp [insertPairJ, canonKV, insertPair, h]
    · simp [insertPairJ, canonKV, insertPair, h, canonKV_insertPairJ t k v]

theorem canonKV_sortPairsJ : ∀ (o : JObj), canonKV (sortPairsJ o) = sortRendered (canonKV o)
  | .nil => rfl
  | .cons k v t => by
    simp [sortPairsJ, canonKV, sortRendered, canonKV_insertPairJ, canonKV_sortPairsJ t]

theorem sortRendered_eq_self : ∀ (l : List (Str × Str)),
    List.Pairwise (fun x y : Str × Str => strLt x.1 y.1 = true) l → sortRendered l = l := by
  intro l
  induction l with
  | nil => intro _; rfl
  | cons p t ih =>
    intro h
    rw [List.pairwise_cons] at h
    simp only [sortRendered]
    rw [ih h.2]
    cases t with
    | nil => rfl
    | cons q t' =>
      have := h.1 q (List.mem_cons_self _ _)
      simp [insertPair, this]

theorem sortRendered_idem (l : List (Str × Str)) (hnd : (l.map Prod.fst).Nodup) :
    sortRendered (sortRendered l) = sortRendered l := by
  apply sortRendered_eq_self
  apply pairwise_strict_of_nodup
  · exact (((sortRendered_perm l).map Prod.fst).nodup_iff).mpr hnd
  · exact pairwise_sortRendered l

theorem canonL_sortDeepL_aux (n : Nat)
    (ih : ∀ v : J, sizeOf v < n → wfJ v = true → canon (sortDeep v) = canon v) :
    ∀ (xs : JList), sizeOf xs < n → wfL xs = true → canonL (sortDeepL xs) = canonL xs
  | .nil => by intro _ _; rfl
  | .cons x t => by
    intro hs hw
    simp only [wfL, Bool.and_eq_true] at hw
    have hspec : sizeOf (JList.cons x t) = 1 + sizeOf x + sizeOf t := by simp
    simp only [sortDeepL, canonL]
    rw [ih x (by omega) hw.1, canonL_sortDeepL_aux n ih t (by omega) hw.2]

theorem canonKV_sortDeepO_aux (n : Nat)
    (ih : ∀ v : J, sizeOf v < n → wfJ v = true → canon (sortDeep v) = canon v) :
    ∀ (o : JObj), sizeOf o < n → wfO o = true → canonKV (sortDeepO o) = canonKV o
  | .nil => by intro _ _; rfl
  | .cons k v t => by
    intro hs hw
    simp only [wfO, Bool.and_eq_true] at hw
    have hspec : sizeOf (JObj.cons k v t) = 1 + sizeOf k + sizeOf v + sizeOf t := by simp
    simp only [sortDeepO, canonKV]
    rw [ih v (by omega) hw.1, canonKV_sortDeepO_aux n ih t (by omega) hw.2]

theorem canon_sortDeep_aux : ∀ n : Nat, ∀ v : J, sizeOf v < n → wfJ v = true →
    canon (sortDeep v) = canon v := by
  intro n
  induction n with
  | zero => intro v h _; omega
  | succ n ih =>
    intro v hs hw
    cases v with
    | str s => rfl
    | arr xs =>
      have hx : sizeOf xs < n := by
        have : sizeOf (J.arr xs) = 1 + sizeOf xs := by simp
        omega
      simp only [sortDeep, canon]
      rw [canonL_sortDeepL_aux n ih xs hx (by simpa [wfJ] using hw)]
    | obj kvs =>
      simp only [wfJ, Bool.and_eq_true] at hw
      have hx : sizeOf kvs < n := by
        have : sizeOf (J.obj kvs) = 1 + sizeOf kvs := by simp
        omega
      simp only [sortDeep, canon]
      rw [canonKV_sortPairsJ, canonKV_sortDeepO_aux n ih kvs hx hw.2,
        sortRendered_idem _ (by rw [keys_canonKV]; exact nodupKeysO_nodup kvs hw.1)]


/-!  Round trip for JSON string escaping. -/

theorem char_valid_range (c : Char) :
    (c.toNat < 55296 ∨ 57343 < c.toNat) ∧ c.toNat < 1114112 := by
  have h := c.valid
  simp only [UInt32.isValidChar, Nat.isValidChar] at h
  simp only [Char.toNat]
  omega

theorem hexVal_hexDigitLower : ∀ d, d < 16 → hexVal (hexDigitLower d) = some d := by decide

theorem hexQuad4_digits (n : Nat) (rest : Str) (hn : n < 65536) :
    hexQuad4 (hexDigitLower (n / 4096 % 16) :: hexDigitLower (n / 256 % 16) ::
      hexDigitLower (n / 16 % 16) :: hexDigitLower (n % 16) :: rest) = some (n, rest) := by
  have e1 := hexVal_hexDigitLower (n / 4096 % 16) (by omega)
  have e2 := hexVal_hexDigitLower (n / 256 % 16) (by omega)
  have e3 := hexVal_hexDigitLower (n / 16 % 16) (by omega)
  have e4 := hexVal_hexDigitLower (n % 16) (by omega)
  simp [hexQuad4, e1, e2, e3, e4]
  omega

theorem decodeU_digits (n : Nat) (rest : Str) (hn : n < 65536)
    (hs : ¬(55296 ≤ n ∧ n ≤ 57343)) :
    decodeU (hexDigits4 n ++ rest) = some (Char.ofNat n, rest) := by
  have hhi : isHighSur n = false := by simp [isHighSur]; omega
  have hlo : isLowSur n = false := by simp [isLowSur]; omega
  rw [show hexDigits4 n ++ rest = hexDigitLower (n / 4096 % 16) :: hexDigitLower (n / 256 % 16) ::
      hexDigitLower (n / 16 % 16) :: hexDigitLower (n % 16) :: rest from rfl]
  rw [decodeU, hexQuad4_digits n rest hn]
  simp only [hhi, hlo]
  rfl

theorem decodeU_pair (n m : Nat) (rest : Str)
    (hhi : isHighSur n = true) (hlom : isLowSur m = true) :
    decodeU (hexDigits4 n ++ ('\\' :: 'u' :: (hexDigits4 m ++ rest))) =
      some (Char.ofNat (65536 + (n - 55296) * 1024 + (m - 56320)), rest) := by
  have hnlt : n < 65536 := by simp [isHighSur] at hhi; omega
  have hmlt : m < 65536 := by simp [isLowSur] at hlom; omega
  rw [show hexDigits4 n ++ ('\\' :: 'u' :: (hexDigits4 m ++ rest)) =
      hexDigitLower (n / 4096 % 16) :: hexDigitLower (n / 256 % 16) ::
      hexDigitLower (n / 16 % 16) :: hexDigitLower (n % 16) ::
      ('\\' :: 'u' :: (hexDigits4 m ++ rest)) from rfl]
  rw [decodeU, hexQuad4_digits n _ hnlt]
  simp only [hhi, if_true]
  rw [show decodeLow ('\\' :: 'u' :: (hexDigits4 m ++ rest)) =
      (match hexQuad4 (hexDigits4 m ++ rest) with
       | some (m2, r5) => if isLowSur m2 then some (m2, r5) else none
       | none => none) from by simp [decodeLow]]
  rw [show hexDigits4 m ++ rest = hexDigitLower (m / 4096 % 16) :: hexDigitLower (m / 256 % 16) ::
      hexDigitLower (m / 16 % 16) :: hexDigitLower (m % 16) :: rest from rfl]
  rw [hexQuad4_digits m rest hmlt]
  simp only [hlom, if_true]

theorem parseJStringBody_escapeChar (c : Char) (fuel : Nat) (rest : Str) :
    parseJStringBody (fuel + 1) (escapeChar c ++ rest) =
      consFirst c (parseJStringBody fuel rest) := by
  obtain ⟨hsur, hmax⟩ := char_valid_range c
  unfold escapeChar
  split_ifs with h1 h2 h3 h4 h5 h6 h7 h8 h9
  · subst h1; simp [parseJStringBody, decodeEsc, simpleEsc]
  · subst h2; simp [parseJStringBody, decodeEsc, simpleEsc]
  · subst h3; simp [parseJStringBody, decodeEsc, simpleEsc]
  · subst h4; simp [parseJStringBody, decodeEsc, simpleEsc]
  · subst h5; simp [parseJStringBody, decodeEsc, simpleEsc]
  · have hc : c = '\x08' := char_eq_of_toNat_eq (by rw [h6]; decide)
    subst hc; simp [parseJStringBody, decodeEsc, simpleEsc]
  · have hc : c = '\x0c' := char_eq_of_toNat_eq (by rw [h7]; decide)
    subst hc; simp [parseJStringBody, decodeEsc, simpleEsc]
  · simp only [uEsc, List.cons_append]
    rw [parseJStringBody, if_neg (by decide : ¬('\\' : Char) = '"'),
      if_pos (rfl : ('\\' : Char) = '\\')]
    rw [show decodeEsc ('u' :: (hexDigits4 c.toNat ++ rest)) =
        decodeU (hexDigits4 c.toNat ++ rest) from by
      rw [decodeEsc, if_pos (rfl : ('u' : Char) = 'u')]]
    rw [decodeU_digits c.toNat rest h9 (by omega), Char.ofNat_toNat]
  · simp only [uEsc, List.cons_append, List.append_assoc]
    rw [parseJStringBody, if_neg (by decide : ¬('\\' : Char) = '"'),
      if_pos (rfl : ('\\' : Char) = '\\')]
    rw [show decodeEsc ('u' :: (hexDigits4 (55296 + (c.toNat - 65536) / 1024) ++
        ('\\' :: 'u' :: (hexDigits4 (56320 + (c.toNat - 65536) % 1024) ++ rest)))) =
        decodeU (hexDigits4 (55296 + (c.toNat - 65536) / 1024) ++
          ('\\' :: 'u' :: (hexDigits4 (56320 + (c.toNat - 65536) % 1024) ++ rest))) from by
      rw [decodeEsc, if_pos (rfl : ('u' : Char) = 'u')]]
    rw [decodeU_pair _ _ rest (by simp [isHighSur]; omega) (by simp [isLowSur]; omega)]
    have hcomb : 65536 + (55296 + (c.toNat - 65536) / 1024 - 55296) * 1024 +
        (56320 + (c.toNat - 65536) % 1024 - 56320) = c.toNat := by omega
    rw [hcomb, Char.ofNat_toNat]
  · have h32 : ¬c.toNat < 32 := by
      intro hc
      exact h8 (by simp [hc])
    simp only [List.singleton_append]
    rw [parseJStringBody, if_neg h1, if_neg h2, if_neg h32]

theorem parseJStringBody_escString :
    ∀ (s : Str) (fuel : Nat) (rest : Str), s.length < fuel →
      parseJStringBody fuel (escString s ++ '"' :: rest) = some (s, rest) := by
  intro s
  induction s with
  | nil =>
    intro fuel rest h
    cases fuel with
    | zero => omega
    | succ g => simp [escString, parseJStringBody]
  | cons c t ih =>
    intro fuel rest h
    cases fuel with
    | zero => omega
    | succ g =>
      have : escString (c :: t) = escapeChar c ++ escString t := by
        simp [escString]
      have ht : t.length < g := by
        simp only [List.length_cons] at h
        omega
      rw [this, List.append_assoc, parseJStringBody_escapeChar, ih g rest ht]
      rfl

/-!  Conversions and commutation lemmas for the reparse round trip. -/

theorem ofList_jlToList : ∀ l : JList, ofList (jlToList l) = l
  | .nil => rfl
  | .cons x t => by simp [jlToList, ofList, ofList_jlToList t]

theorem ofListO_joToList : ∀ o : JObj, ofListO (joToList o) = o
  | .nil => rfl
  | .cons k v t => by simp [joToList, ofListO, ofListO_joToList t]

theorem sortDeepO_insertPairJ : ∀ (t : JObj) (k : Str) (v : J),
    sortDeepO (insertPairJ k v t) = insertPairJ k (sortDeep v) (sortDeepO t)
  | .nil, k, v => rfl
  | .cons k2 v2 t, k, v => by
    by_cases h : strLt k k2 = true
    · simp [insertPairJ, sortDeepO, h]
    · simp [insertPairJ, sortDeepO, h, sortDeepO_insertPairJ t k v]

theorem sortDeepO_sortPairsJ : ∀ o : JObj, sortDeepO (sortPairsJ o) = sortPairsJ (sortDeepO o)
  | .nil => rfl
  | .cons k v t => by
    simp [sortPairsJ, sortDeepO, sortDeepO_insertPairJ, sortDeepO_sortPairsJ t]

theorem sizeOf_insertPairJ : ∀ (t : JObj) (k : Str) (v : J),
    sizeOf (insertPairJ k v t) = 1 + sizeOf k + sizeOf v + sizeOf t
  | .nil, k, v => by simp [insertPairJ]
  | .cons k2 v2 t, k, v => by
    by_cases h : strLt k k2 = true
    · simp [insertPairJ, h]
    · simp [insertPairJ, h, sizeOf_insertPairJ t k v]
      omega

theorem sizeOf_sortPairsJ : ∀ o : JObj, sizeOf (sortPairsJ o) = sizeOf o
  | .nil => rfl
  | .cons k v t => by
    simp [sortPairsJ, sizeOf_insertPairJ, sizeOf_sortPairsJ t]

theorem canon_head_cases : ∀ v : J, ∃ c t, canon v = c :: t ∧
    (c = '"' ∨ c = '[' ∨ c = '\x7b') := by
  intro v
  cases v with
  | str s => exact ⟨'"', _, rfl, Or.inl rfl⟩
  | arr xs => exact ⟨'[', _, rfl, Or.inr (Or.inl rfl)⟩
  | obj kvs => exact ⟨'\x7b', _, rfl, Or.inr (Or.inr rfl)⟩

theorem escapeChar_length_pos (c : Char) : 1 ≤ (escapeChar c).length := by
  unfold escapeChar
  split_ifs <;> simp [uEsc, hexDigits4]

theorem escString_length_ge : ∀ s : Str, s.length ≤ (escString s).length := by
  intro s
  induction s with
  | nil => simp [escString]
  | cons c t ih =>
    have h := escapeChar_length_pos c
    simp only [escString, List.map_cons, List.flatten_cons, List.length_append,
      List.length_cons]
    simp only [escString] at ih
    omega

theorem arrTailText_cons (x : J) (xs : JList) :
    arrTailText (JList.cons x xs) = ',' :: (canon x ++ arrTailText xs) := by
  simp [arrTailText, canonL]

theorem canon_arr_cons (x : J) (xs : JList) :
    canon (J.arr (JList.cons x xs)) = '[' :: (canon x ++ arrTailText xs) ++ [']'] := by
  simp [canon, canonL, joinComma, arrTailText]

theorem objTailText_cons (k : Str) (v : J) (t : JObj) :
    objTailText (JObj.cons k v t) = ',' :: ((renderStr k ++ ':' :: canon v) ++ objTailText t) := by
  simp [objTailText, canonKV]

theorem canon_obj_eq (kvs : JObj) :
    canon (J.obj kvs) = '\x7b' :: joinComma ((canonKV (sortPairsJ kvs)).map
      (fun p => renderStr p.1 ++ ':' :: p.2)) ++ ['\x7d'] := by
  simp [canon, canonKV_sortPairsJ]

theorem joinComma_obj_cons (k : Str) (v : J) (t : JObj) :
    joinComma ((canonKV (JObj.cons k v t)).map (fun p => renderStr p.1 ++ ':' :: p.2)) =
      (renderStr k ++ ':' :: canon v) ++ objTailText t := by
  simp [canonKV, joinComma, objTailText]

theorem parseArrTail_canon (n : Nat)
    (ih : ∀ v : J, sizeOf v < n → ∀ (rest : Str) (fuel : Nat), (canon v).length < fuel →
      parseJ fuel (canon v ++ rest) = some (sortDeep v, rest)) :
    ∀ (xs : JList) (acc : List J) (rest : Str) (fuel : Nat), sizeOf xs < n →
      (arrTailText xs).length < fuel →
      parseArrTail fuel (arrTailText xs ++ ']' :: rest) acc =
        some (J.arr (ofList (acc.reverse ++ jlToList (sortDeepL xs))), rest)
  | .nil => by
    intro acc rest fuel hsz hlen
    cases fuel with
    | zero => simp [arrTailText, canonL] at hlen
    | succ g =>
      simp [arrTailText, canonL, parseArrTail, sortDeepL, jlToList]
  | .cons x xs => by
    intro acc rest fuel hsz hlen
    rw [arrTailText_cons] at hlen ⊢
    cases fuel with
    | zero => simp at hlen
    | succ g =>
      have hspec : sizeOf (JList.cons x xs) = 1 + sizeOf x + sizeOf xs := by simp
      have hx : sizeOf x < n := by omega
      have hxs : sizeOf xs < n := by omega
      simp only [List.length_cons, List.length_append] at hlen
      have hlx : (canon x).length < g := by omega
      have hlt : (arrTailText xs).length < g := by omega
      have hstep : (',' :: (canon x ++ arrTailText xs)) ++ ']' :: rest =
          ',' :: (canon x ++ (arrTailText xs ++ ']' :: rest)) := by simp
      rw [hstep]
      have h1 : parseJ g (canon x ++ (arrTailText xs ++ ']' :: rest)) =
          some (sortDeep x, arrTailText xs ++ ']' :: rest) := ih x hx _ g hlx
      have h2 : parseArrTail g (arrTailText xs ++ ']' :: rest) (sortDeep x :: acc) =
          some (J.arr (ofList ((sortDeep x :: acc).reverse ++ jlToList (sortDeepL xs))), rest) :=
        parseArrTail_canon n ih xs (sortDeep x :: acc) rest g hxs hlt
      simp [parseArrTail, h1, h2, sortDeepL, jlToList, List.append_assoc]

theorem parseObjTail_canon (n : Nat)
    (ih : ∀ v : J, sizeOf v < n → ∀ (rest : Str) (fuel : Nat), (canon v).length < fuel →
      parseJ fuel (canon v ++ rest) = some (sortDeep v, rest)) :
    ∀ (m : JObj) (acc : List (Str × J)) (rest : Str) (fuel : Nat), sizeOf m < n →
      (objTailText m).length < fuel →
      parseObjTail fuel (objTailText m ++ '\x7d' :: rest) acc =
        some (J.obj (ofListO (acc.reverse ++ joToList (sortDeepO m))), rest)
  | .nil => by
    intro acc rest fuel hsz hlen
    cases fuel with
    | zero => simp [objTailText, canonKV] at hlen
    | succ g =>
      simp [objTailText, canonKV, parseObjTail, sortDeepO, joToList]
  | .cons k v t => by
    intro acc rest fuel hsz hlen
    rw [objTailText_cons] at hlen ⊢
    cases fuel with
    | zero => simp at hlen
    | succ g =>
      have hspec : sizeOf (JObj.cons k v t) = 1 + sizeOf k + sizeOf v + sizeOf t := by simp
      have hv : sizeOf v < n := by omega
      have hst : sizeOf t < n := by omega
      simp only [List.length_cons, List.length_append] at hlen
      have hlv : (canon v).length < g := by omega
      have hlt : (objTailText t).length < g := by omega
      have hstep : (',' :: ((renderStr k ++ ':' :: canon v) ++ objTailText t)) ++ '\x7d' :: rest =
          ',' :: ('"' :: (escString k ++
            ('"' :: (':' :: (canon v ++ (objTailText t ++ '\x7d' :: rest)))))) := by
        simp [renderStr]
      rw [hstep]
      have hk := parseJStringBody_escString k
        ((escString k ++ '"' :: (':' :: (canon v ++ (objTailText t ++ '\x7d' :: rest)))).length + 1)
        (':' :: (canon v ++ (objTailText t ++ '\x7d' :: rest)))
        (by
          have := escString_length_ge k
          simp only [List.length_append, List.length_cons]
          omega)
      simp only [List.length_append, List.length_cons] at hk
      have h1 : parseJ g (canon v ++ (objTailText t ++ '\x7d' :: rest)) =
          some (sortDeep v, objTailText t ++ '\x7d' :: rest) := ih v hv _ g hlv
      have h2 : parseObjTail g (objTailText t ++ '\x7d' :: rest) ((k, sortDeep v) :: acc) =
          some (J.obj (ofListO (((k, sortDeep v) :: acc).reverse ++ joToList (sortDeepO t))),
            rest) :=
        parseObjTail_canon n ih t ((k, sortDeep v) :: acc) rest g hst hlt
      simp [parseObjTail, hk, h1, h2, sortDeepO, joToList, List.append_assoc]

theorem parseJ_canon_aux : ∀ n : Nat, ∀ v : J, sizeOf v < n →
    ∀ (rest : Str) (fuel : Nat), (canon v).length < fuel →
      parseJ fuel (canon v ++ rest) = some (sortDeep v, rest) := by
  intro n
  induction n with
  | zero => intro v h _ _ _; omega
  | succ n ih =>
    have ih' : ∀ v : J, sizeOf v < n → ∀ (rest : Str) (fuel : Nat), (canon v).length < fuel →
        parseJ fuel (canon v ++ rest) = some (sortDeep v, rest) := ih
    intro v hs rest fuel hlen
    cases v with
    | str s =>
      cases fuel with
      | zero => omega
      | succ g =>
        have hstep : canon (J.str s) ++ rest = '"' :: (escString s ++ ('"' :: rest)) := by
          simp [canon, renderStr]
        rw [hstep]
        have hb := parseJStringBody_escString s
          ((escString s ++ ('"' :: rest)).length + 1) rest
          (by
            have := escString_length_ge s
            simp only [List.length_append, List.length_cons]
            omega)
        simp only [List.length_append, List.length_cons] at hb
        simp [parseJ, hb, sortDeep]
    | arr xs =>
      cases xs with
      | nil =>
        cases fuel with
        | zero => omega
        | succ g =>
          have hstep : canon (J.arr JList.nil) ++ rest = '[' :: (']' :: rest) := by
            simp [canon, canonL, joinComma]
          rw [hstep]
          simp [parseJ, sortDeep, sortDeepL]
      | cons x xs =>
        cases fuel with
        | zero => omega
        | succ g =>
          have hsp1 : sizeOf (J.arr (JList.cons x xs)) =
              1 + (1 + sizeOf x + sizeOf xs) := by simp
          have hx : sizeOf x < n := by omega
          have hxs : sizeOf xs < n := by omega
          rw [canon_arr_cons] at hlen ⊢
          simp only [List.length_append, List.length_cons] at hlen
          have hlx : (canon x).length < g := by omega
          have hlt : (arrTailText xs).length < g := by omega
          have hstep : ('[' :: (canon x ++ arrTailText xs) ++ [']']) ++ rest =
              '[' :: (canon x ++ (arrTailText xs ++ (']' :: rest))) := by simp
          rw [hstep]
          obtain ⟨c0, t0, he, hc0⟩ := canon_head_cases x
          have hne : ¬c0 = ']' := by
            rcases hc0 with rfl | rfl | rfl <;> decide
          have hr : canon x ++ (arrTailText xs ++ (']' :: rest)) =
              c0 :: (t0 ++ (arrTailText xs ++ (']' :: rest))) := by rw [he]; simp
          have h1 : parseJ g (canon x ++ (arrTailText xs ++ (']' :: rest))) =
              some (sortDeep x, arrTailText xs ++ (']' :: rest)) := ih' x hx _ g hlx
          have h2 : parseArrTail g (arrTailText xs ++ ']' :: rest) [sortDeep x] =
              some (J.arr (ofList ([sortDeep x].reverse ++ jlToList (sortDeepL xs))), rest) :=
            parseArrTail_canon n ih' xs [sortDeep x] rest g hxs hlt
          rw [hr] at h1
          simp [parseJ, hr, hne, h1, h2, sortDeep, sortDeepL, jlToList, ofList_jlToList,
            ofList]
    | obj kvs =>
      have hszo : sizeOf (sortPairsJ kvs) = sizeOf kvs := sizeOf_sortPairsJ kvs
      have hsp1 : sizeOf (J.obj kvs) = 1 + sizeOf kvs := by simp
      rw [canon_obj_eq] at hlen ⊢
      cases hm : sortPairsJ kvs with
      | nil =>
        cases fuel with
        | zero => omega
        | succ g =>
          have hstep : ('\x7b' :: joinComma ((canonKV JObj.nil).map
              (fun p => renderStr p.1 ++ ':' :: p.2)) ++ ['\x7d']) ++ rest =
              '\x7b' :: ('\x7d' :: rest) := by simp [canonKV, joinComma]
          rw [hstep]
          have hres : sortDeep (J.obj kvs) = J.obj JObj.nil := by
            rw [sortDeep, ← sortDeepO_sortPairsJ, hm]
            rfl
          simp [parseJ, hres]
      | cons k1 v1 t =>
        cases fuel with
        | zero => omega
        | succ g =>
          rw [hm] at hszo
          have hsp2 : sizeOf (JObj.cons k1 v1 t) = 1 + sizeOf k1 + sizeOf v1 + sizeOf t := by
            simp
          have hv1 : sizeOf v1 < n := by omega
          have hst : sizeOf t < n := by omega
          rw [hm] at hlen
          rw [joinComma_obj_cons] at hlen ⊢
          simp only [List.length_append, List.length_cons] at hlen
          have hlv : (canon v1).length < g := by omega
          have hlt : (objTailText t).length < g := by omega
          have hstep : ('\x7b' :: ((renderStr k1 ++ ':' :: canon v1) ++ objTailText t) ++
              ['\x7d']) ++ rest =
              '\x7b' :: ('"' :: (escString k1 ++
                ('"' :: (':' :: (canon v1 ++ (objTailText t ++ ('\x7d' :: rest))))))) := by
            simp [renderStr]
          rw [hstep]
          have hk := parseJStringBody_escString k1
            ((escString k1 ++
              ('"' :: (':' :: (canon v1 ++ (objTailText t ++ ('\x7d' :: rest)))))).length + 1)
            (':' :: (canon v1 ++ (objTailText t ++ ('\x7d' :: rest))))
            (by
              have := escString_length_ge k1
              simp only [List.length_append, List.length_cons]
              omega)
          simp only [List.length_append, List.length_cons] at hk
          have h1 : parseJ g (canon v1 ++ (objTailText t ++ ('\x7d' :: rest))) =
              some (sortDeep v1, objTailText t ++ ('\x7d' :: rest)) := ih' v1 hv1 _ g hlv
          have h2 : parseObjTail g (objTailText t ++ '\x7d' :: rest) [(k1, sortDeep v1)] =
              some (J.obj (ofListO ([(k1, sortDeep v1)].reverse ++ joToList (sortDeepO t))),
                rest) :=
            parseObjTail_canon n ih' t [(k1, sortDeep v1)] rest g hst hlt
          have hres : sortDeep (J.obj kvs) =
              J.obj (JObj.cons k1 (sortDeep v1) (sortDeepO t)) := by
            rw [sortDeep, ← sortDeepO_sortPairsJ, hm]
            rfl
          simp [parseJ, hk, h1, h2, hres, sortDeepO, joToList, ofListO_joToList, ofListO]

theorem wfL_map_str : ∀ ts : List Str, wfL (ofList (ts.map J.str)) = true
  | [] => rfl
  | t :: ts => by simp [ofList, wfL, wfJ, wfL_map_str ts]

theorem wfJ_sentenceToJ (s : Sentence) : wfJ (sentenceToJ s) = true := by
  obtain ⟨sk, si, it, ac, ok, oi, co, po, pr⟩ := s
  rcases co with _ | ⟨cs, cu⟩ <;> rcases po with _ | toks <;>
    rcases pr with _ | ⟨_ | psha, _ | psig⟩ <;>
    simp +decide [sentenceToJ, ofListO, ofList, wfJ, wfL, wfO, nodupKeysO, alookupO,
      wfL_map_str]

/-- C6: canonicalization is idempotent.  For every Sentence record, json.load
    applied to the canonical serialization succeeds and returns the record with
    every object key-sorted (the same dict up to insertion order), and
    canonicalizing that reparsed record yields byte-identical output. -/
theorem c6_reparse_idempotent (s : Sentence) :
    pyJsonLoad (canon_json (sentenceToJ s)) = some (sortDeep (sentenceToJ s)) ∧
    canon_json (sortDeep (sentenceToJ s)) = canon_json (sentenceToJ s) := by
  have hwf : wfJ (sentenceToJ s) = true := wfJ_sentenceToJ s
  constructor
  · have h := parseJ_canon_aux (sizeOf (sentenceToJ s) + 1) (sentenceToJ s) (by omega) []
      ((canon (sentenceToJ s)).length + 1) (by omega)
    rw [List.append_nil] at h
    simp [pyJsonLoad, canon_json, h]
  · have h2 := canon_sortDeep_aux (sizeOf (sentenceToJ s) + 1) (sentenceToJ s) (by omega) hwf
    simp [canon_json, h2]

end HGL
